import Mathlib

/-!
# Verification of the `async-queue` task sequencer (`src/src/core/index.ts`)

Shallow embedding of the `AsyncQueue` class.  The queue owns three task
lists (`waitList`, `excuteList`, `finishList` — the source's spellings are
kept), a queue-level status, the three construction options, and it emits
lifecycle events.

The asynchronous promise machinery is embedded as a small-step machine with
an explicit FIFO microtask queue: the caller-supplied `excute` function is
taken to settle instantaneously (with a fixed `Outcome`), and each of the
three reactions registered on it in `next()` — the `.then` callback, the
`.catch` callback and the `.finally` callback — costs exactly one microtask
tick when the promise before it settles, exactly as one reaction job per
`then`/`catch`/`finally` link in a real event loop.  A pass-through link
(`.then` on a rejected promise, `.catch` on a fulfilled one) still costs its
tick but runs no user code.

Task-status writes (`task.status = ...` in the source mutate a shared
object) are modelled as an update by id across the three lists; the two
coincide whenever ids are unique among tracked tasks, which is the regime
`push` enforces and the regime of every run modelled below that performs a
status write.
-/

set_option maxHeartbeats 2000000

namespace AsyncQueue

/-- Task statuses: `STATUS_WAITING`, `STATUS_PEDDING` (the source's
spelling), `STATUS_SUCCESS`, `STATUS_FAILURE`. -/
inductive TaskStatus where
  | waiting
  | pedding
  | success
  | failure
  deriving DecidableEq, Repr

/-- Queue statuses: `STATUS_QUEUE_WAITING`, `STATUS_QUEUE_RUNNING`,
`STATUS_QUEUE_BEFORE_PAUSE`, `STATUS_QUEUE_PAUSE`, `STATUS_QUEUE_FINISH`. -/
inductive QueueStatus where
  | qWaiting
  | qRunning
  | qBeforePause
  | qPause
  | qFinish
  deriving DecidableEq, Repr

/-- The caller-supplied `excute` function is embedded by what its promise
instantaneously settles to: fulfilment (`resolve`) or rejection
(`rejection`). -/
inductive Outcome where
  | resolve
  | rejection
  deriving DecidableEq, Repr

/-- An `AsyncTaskItem` from `src/src/type.ts`: id, current status and the
opaque `excute` operation (represented by its instantaneous outcome). -/
structure AsyncTaskItem where
  id : String
  status : TaskStatus
  outcome : Outcome
  deriving DecidableEq, Repr

/-- The three construction-time booleans (`AsyncQueueOptions`). -/
structure AsyncQueueOptions where
  immediate : Bool
  removeAfterFinish : Bool
  continueWhenError : Bool
  deriving DecidableEq, Repr

/-- Defaults from the source: manual start, retain finished, halt on
failure. -/
def defaultOptions : AsyncQueueOptions :=
  { immediate := false, removeAfterFinish := false, continueWhenError := false }

/-- The published lifecycle events.  A `taskStart` event records, besides the
task id, the status field of the payload task at the moment `emit` is
called (the payload is the live task object, so a subscriber reads exactly
this status during delivery). -/
inductive Event where
  | taskStart (id : String) (statusAtEmit : TaskStatus)
  | taskSuccess (id : String)
  | taskFailure (id : String)
  | queueStart
  | queuePause
  | queueFinish
  deriving DecidableEq, Repr

/-- Pending promise reactions.  For a started task, `thenCb`, `catchCb` and
`finallyCb` are the reaction jobs of the `.then`, `.catch` and `.finally`
links of `task.excute(task).then(...).catch(...).finally(...)`; each is
enqueued when the link before it settles.  `pauseSettled` is the reaction of
the `Promise.all(...).finally(...)` registered by `pause()`. -/
inductive Microtask where
  | thenCb (id : String) (outcome : Outcome)
  | catchCb (id : String) (outcome : Outcome)
  | finallyCb (id : String)
  | pauseSettled
  deriving DecidableEq, Repr

/-- The whole observable state of an `AsyncQueue` instance together with the
pending microtasks and the trace of emitted events.  `pausePending` holds
the ids whose `excutePromise`s the `Promise.all` of a `pause()` call is
still waiting on. -/
structure QueueState where
  waitList : List AsyncTaskItem
  excuteList : List AsyncTaskItem
  finishList : List AsyncTaskItem
  status : QueueStatus
  options : AsyncQueueOptions
  mts : List Microtask
  pausePending : Option (List String)
  events : List Event
  deriving DecidableEq, Repr

/-- A fresh queue (`new AsyncQueue(options)`): empty lists, status
`STATUS_QUEUE_WAITING`. -/
def initQueue (opts : AsyncQueueOptions) : QueueState :=
  { waitList := [], excuteList := [], finishList := [], status := QueueStatus.qWaiting,
    options := opts, mts := [], pausePending := none, events := [] }

/-- `this.emit(name, payload)`: append the event to the trace. -/
def emit (s : QueueState) (e : Event) : QueueState :=
  { s with events := s.events ++ [e] }

/-- Rewrite the status of every tracked entry carrying the given id in one
list (helper for the by-id modelling of `task.status = ...`). -/
def setStatusById (id : String) (st : TaskStatus) (l : List AsyncTaskItem) :
    List AsyncTaskItem :=
  l.map fun t => if t.id = id then { t with status := st } else t

/-- `task.status = st` where `task` is the tracked object with the given id:
update it wherever it is tracked. -/
def writeStatus (s : QueueState) (id : String) (st : TaskStatus) : QueueState :=
  { s with
    waitList := setStatusById id st s.waitList,
    excuteList := setStatusById id st s.excuteList,
    finishList := setStatusById id st s.finishList }

/-- `findTaskById`: scan `waitList`, then `excuteList`, then `finishList`
(the source's `find || find || find` chain). -/
def findTaskById (s : QueueState) (id : String) : Option AsyncTaskItem :=
  match s.waitList.find? (fun t => t.id = id) with
  | some t => some t
  | none =>
      match s.excuteList.find? (fun t => t.id = id) with
      | some t => some t
      | none => s.finishList.find? (fun t => t.id = id)

/-- `isExist(id)`: the id appears in one of the three lists. -/
def isExist (s : QueueState) (id : String) : Bool :=
  (findTaskById s id).isSome

/-- `next()`: if a pause is in progress do nothing; otherwise shift the head
of `waitList`.  If there is none, set the queue status to finish and publish
the finish event.  If there is one: push it onto `excuteList`, publish the
task-start event (the payload task still carries its pre-pickup status at
this moment), set its status to `STATUS_PEDDING`, and invoke its `excute`
operation — the settled promise's `.then` reaction is enqueued. -/
def next (s : QueueState) : QueueState :=
  if s.status = QueueStatus.qBeforePause then s
  else
    match s.waitList with
    | [] =>
        emit { s with status := QueueStatus.qFinish } Event.queueFinish
    | task :: rest =>
        let s1 : QueueState := { s with waitList := rest, excuteList := s.excuteList ++ [task] }
        let s2 : QueueState := emit s1 (Event.taskStart task.id task.status)
        let s3 : QueueState := writeStatus s2 task.id TaskStatus.pedding
        { s3 with mts := s3.mts ++ [Microtask.thenCb task.id task.outcome] }

/-- `exec()`: warn and return if already running; otherwise set the status
to running, publish the queue-start event and call `next()` once. -/
def exec (s : QueueState) : QueueState :=
  if s.status = QueueStatus.qRunning then s
  else
    next (emit { s with status := QueueStatus.qRunning } Event.queueStart)

/-- Result of a `push` call: either the rejection callback was invoked with
the ("TaskIsExist") error and the already-tracked task and a rejected
promise was returned, or the task went in and a resolved promise was
returned. -/
inductive PushResult where
  | rejected (existing : AsyncTaskItem)
  | resolved
  deriving DecidableEq, Repr

/-- `push(id, excuteFn, pushFailureFn?)`: reject when the id is already
tracked; otherwise append a new `STATUS_WAITING` task to the tail of
`waitList` and, when `immediate` is set, trigger `exec()`. -/
def push (s : QueueState) (id : String) (outcome : Outcome) :
    QueueState × PushResult :=
  match findTaskById s id with
  | some existTask => (s, PushResult.rejected existTask)
  | none =>
      let s1 : QueueState :=
        { s with waitList :=
            s.waitList ++ [{ id := id, status := TaskStatus.waiting, outcome := outcome }] }
      if s.options.immediate then (exec s1, PushResult.resolved)
      else (s1, PushResult.resolved)

/-- Submit a whole list of `(id, outcome)` pairs by successive `push` calls,
discarding the acknowledgements. -/
def pushAll (s : QueueState) (ts : List (String × Outcome)) : QueueState :=
  ts.foldl (fun s p => (push s p.1 p.2).1) s

/-- The `.then` callback of a started task's chain (one microtask).  On a
fulfilled base promise it runs the success handler: mark the task
`STATUS_SUCCESS`, publish the success event, and — when `continueWhenError`
is disabled — call `next()`.  On a rejected base promise the link is a
pass-through.  Either way the `.then`-result promise then settles,
enqueueing the `.catch` reaction. -/
def runThenCb (s : QueueState) (id : String) (o : Outcome) : QueueState :=
  match o with
  | Outcome.resolve =>
      let s1 : QueueState := writeStatus s id TaskStatus.success
      let s2 : QueueState := emit s1 (Event.taskSuccess id)
      let s3 : QueueState :=
        if s.options.continueWhenError = false then next s2 else s2
      { s3 with mts := s3.mts ++ [Microtask.catchCb id Outcome.resolve] }
  | Outcome.rejection =>
      { s with mts := s.mts ++ [Microtask.catchCb id Outcome.rejection] }

/-- The `.catch` callback (one microtask).  On the rejected path it runs the
failure handler: mark the task `STATUS_FAILURE` and publish the failure
event (no `next()` call here).  On the fulfilled path it is a pass-through.
Either way the `.finally` reaction is enqueued next. -/
def runCatchCb (s : QueueState) (id : String) (o : Outcome) : QueueState :=
  match o with
  | Outcome.resolve =>
      { s with mts := s.mts ++ [Microtask.finallyCb id] }
  | Outcome.rejection =>
      let s1 : QueueState := writeStatus s id TaskStatus.failure
      let s2 : QueueState := emit s1 (Event.taskFailure id)
      { s2 with mts := s2.mts ++ [Microtask.finallyCb id] }

/-- Settlement of the task's `excutePromise` (the `.finally`-result): if a
`pause()` call is waiting on this id, discharge it, and enqueue the
`Promise.all(...).finally` reaction once every awaited promise has
settled. -/
def dischargePause (s : QueueState) (id : String) : QueueState :=
  match s.pausePending with
  | none => s
  | some l =>
      let l' := l.erase id
      if l' = [] then
        { s with pausePending := none, mts := s.mts ++ [Microtask.pauseSettled] }
      else
        { s with pausePending := some l' }

/-- First step of the `.finally` callback: unless `removeAfterFinish` is
set, push the captured task object (the live entry of `excuteList` carrying
this id) onto `finishList`. -/
def pushFinished (s : QueueState) (id : String) : QueueState :=
  if s.options.removeAfterFinish = false then
    match s.excuteList.find? (fun t => t.id = id) with
    | some task => { s with finishList := s.finishList ++ [task] }
    | none => s
  else s

/-- The `.finally` callback (one microtask): unless `removeAfterFinish` is
set, push the finished task onto `finishList`; when `continueWhenError` is
set, call `next()`; then `excuteList.shift()`.  The task's `excutePromise`
then settles. -/
def runFinallyCb (s : QueueState) (id : String) : QueueState :=
  let s1 : QueueState := pushFinished s id
  let s2 : QueueState :=
    if s.options.continueWhenError = true then next s1 else s1
  let s3 : QueueState := { s2 with excuteList := s2.excuteList.drop 1 }
  dischargePause s3 id

/-- The `Promise.all(...).finally` reaction registered by `pause()`: once
every in-flight outcome has settled, move to finish (publishing the finish
event) when `waitList` is empty, and to pause (publishing the pause event)
otherwise. -/
def runPauseSettled (s : QueueState) : QueueState :=
  if s.waitList = [] then
    emit { s with status := QueueStatus.qFinish } Event.queueFinish
  else
    emit { s with status := QueueStatus.qPause } Event.queuePause

/-- Dispatch one microtask. -/
def runMicrotask (s : QueueState) : Microtask → QueueState
  | Microtask.thenCb id o => runThenCb s id o
  | Microtask.catchCb id o => runCatchCb s id o
  | Microtask.finallyCb id => runFinallyCb s id
  | Microtask.pauseSettled => runPauseSettled s

/-- Run up to `fuel` microtasks off the FIFO microtask queue. -/
def drain : Nat → QueueState → QueueState
  | 0, s => s
  | fuel + 1, s =>
      match s.mts with
      | [] => s
      | m :: rest => drain fuel (runMicrotask { s with mts := rest } m)

/-- `pause()`: no-op unless running.  Otherwise set the status to
before-pause and wait (via `Promise.all` over the `excutePromise`s of the
current `excuteList`) for every in-flight outcome to settle; with no task
in flight the `Promise.all` is already settled and its reaction is enqueued
at once. -/
def pause (s : QueueState) : QueueState :=
  if s.status = QueueStatus.qRunning then
    let s1 : QueueState := { s with status := QueueStatus.qBeforePause }
    if s1.excuteList = [] then
      { s1 with mts := s1.mts ++ [Microtask.pauseSettled] }
    else
      { s1 with pausePending := some (s1.excuteList.map fun t => t.id) }
  else s

/-- `resume()`: no-op unless paused; otherwise `exec()`. -/
def resume (s : QueueState) : QueueState :=
  if s.status = QueueStatus.qPause then exec s else s

/-- `findIndex` + `splice(index, 1)`: remove the first entry with the given
id, when present. -/
def eraseFirstById (l : List AsyncTaskItem) (id : String) : List AsyncTaskItem :=
  match l with
  | [] => []
  | t :: rest => if t.id = id then rest else t :: eraseFirstById rest id

/-- `removeFromFinishList(task)`. -/
def removeFromFinishList (s : QueueState) (id : String) : QueueState :=
  { s with finishList := eraseFirstById s.finishList id }

/-- `retry(task)`: remove the task from `finishList` (when present), append
the given task object to the tail of `waitList`, and call `exec()`. -/
def retry (s : QueueState) (task : AsyncTaskItem) : QueueState :=
  let s1 : QueueState := removeFromFinishList s task.id
  let s2 : QueueState := { s1 with waitList := s1.waitList ++ [task] }
  exec s2

/-- `retryAll()`: partition the current `finishList` into failed and
succeeded tasks, retry each failed task in order, and leave `finishList`
holding the succeeded ones. -/
def retryAll (s : QueueState) : QueueState :=
  let failureTasks := s.finishList.filter fun t => t.status = TaskStatus.failure
  let successTasks := s.finishList.filter fun t => t.status = TaskStatus.success
  let s1 : QueueState := failureTasks.foldl retry s
  { s1 with finishList := successTasks }

/-- Result of a `reset` call: either the rejection callback was invoked with
the ("AsyncQueueIsRunning") error and a rejected promise returned, or the
merge went through. -/
inductive ResetResult where
  | rejected
  | completed
  deriving DecidableEq, Repr

/-- `reset(resetFailFn?)`: reject while running; otherwise concatenate
`finishList` onto the tail of `waitList`, clear `finishList`, and set the
status of every task of the merged `waitList` back to `STATUS_WAITING`. -/
def reset (s : QueueState) : QueueState × ResetResult :=
  if s.status = QueueStatus.qRunning then (s, ResetResult.rejected)
  else
    let s1 : QueueState := { s with waitList := s.waitList ++ s.finishList, finishList := [] }
    (( { s1 with waitList := s1.waitList.map fun t => { t with status := TaskStatus.waiting } }),
      ResetResult.completed)

/-! ## Observables and run helpers -/

/-- The ids of the `EVENT_TASK_START` events of a trace, in publish order. -/
def startedIds (l : List Event) : List String :=
  l.filterMap fun e =>
    match e with
    | Event.taskStart id _ => some id
    | _ => none

/-- Every tracked entry: waiting, in-flight, finished. -/
def allTasks (s : QueueState) : List AsyncTaskItem :=
  s.waitList ++ s.excuteList ++ s.finishList

/-- The ids of every tracked entry. -/
def allIds (s : QueueState) : List String :=
  (allTasks s).map fun t => t.id

/-- How many tracked entries currently hold `STATUS_PEDDING`. -/
def pendingCount (s : QueueState) : Nat :=
  ((allTasks s).filter fun t => t.status = TaskStatus.pedding).length

/-- How many tracked entries carry a given id. -/
def countId (s : QueueState) (id : String) : Nat :=
  ((allTasks s).filter fun t => t.id = id).length

/-- Microtask weights for the termination measure of a run. -/
def mtWeight : Microtask → Nat
  | Microtask.thenCb _ _ => 3
  | Microtask.catchCb _ _ => 2
  | Microtask.finallyCb _ => 1
  | Microtask.pauseSettled => 1

/-- Termination measure: pending work of a run without pause interference.
Each microtask step decreases it by exactly one. -/
def fuelMeasure (s : QueueState) : Nat :=
  3 * s.waitList.length + (s.mts.map mtWeight).sum

/-- Submit the given tasks, call `exec()`, and run the ensuing microtasks to
completion. -/
def runAll (opts : AsyncQueueOptions) (ts : List (String × Outcome)) : QueueState :=
  let s1 := exec (pushAll (initQueue opts) ts)
  drain (fuelMeasure s1) s1

end AsyncQueue

namespace AsyncQueue

/-! ## Basic lemmas about the machine -/

theorem drain_of_mts_eq_nil (n : Nat) (s : QueueState) (h : s.mts = []) :
    drain n s = s := by
  cases n with
  | zero => rfl
  | succ k => simp [drain, h]

theorem eraseFirstById_of_not_mem (l : List AsyncTaskItem) (id : String)
    (h : id ∉ l.map fun t => t.id) : eraseFirstById l id = l := by
  induction l with
  | nil => rfl
  | cons t rest ih =>
      simp only [List.map_cons, List.mem_cons, not_or] at h
      have ht : ¬ t.id = id := fun hy => h.1 hy.symm
      simp [eraseFirstById, ht, ih h.2]

end AsyncQueue

namespace AsyncQueue

/-! ## Helper lemmas for unfolding the operations -/

theorem setStatusById_of_not_mem (id : String) (st : TaskStatus)
    (l : List AsyncTaskItem) (h : id ∉ l.map fun t => t.id) :
    setStatusById id st l = l := by
  induction l with
  | nil => rfl
  | cons t rest ih =>
      simp only [List.map_cons, List.mem_cons, not_or] at h
      have ht : ¬ t.id = id := fun hy => h.1 hy.symm
      simp only [setStatusById, List.map_cons, if_neg ht]
      have := ih h.2
      simp only [setStatusById] at this
      rw [this]

theorem retry_running (s : QueueState) (t : AsyncTaskItem)
    (h : s.status = QueueStatus.qRunning) :
    retry s t =
      { s with finishList := eraseFirstById s.finishList t.id,
               waitList := s.waitList ++ [t] } := by
  simp [retry, removeFromFinishList, exec, h]

theorem foldl_retry_running (l : List AsyncTaskItem) : ∀ s : QueueState,
    s.status = QueueStatus.qRunning →
    l.foldl retry s =
      { s with waitList := s.waitList ++ l,
               finishList := l.foldl (fun fl t => eraseFirstById fl t.id) s.finishList } := by
  induction l with
  | nil => intro s _; simp
  | cons t rest ih =>
      intro s h
      rw [List.foldl_cons, retry_running s t h,
        ih { s with finishList := eraseFirstById s.finishList t.id,
                    waitList := s.waitList ++ [t] } h]
      simp [List.foldl_cons, List.append_assoc]

end AsyncQueue

namespace AsyncQueue

/-! ## Scenario states for the concrete claims -/

/-- The `continueWhenError = true` configuration. -/
def cweOptions : AsyncQueueOptions :=
  { immediate := false, removeAfterFinish := false, continueWhenError := true }

/-- Halt-on-failure scenario (C4): defaults, submit A (succeeds),
B (fails), C (succeeds), `exec()`, run all microtasks. -/
def c4Final : QueueState :=
  runAll defaultOptions
    [("a", Outcome.resolve), ("b", Outcome.rejection), ("c", Outcome.resolve)]

/-- Continue-on-failure scenario (C5): same three tasks with
`continueWhenError = true`. -/
def c5Final : QueueState :=
  runAll cweOptions
    [("a", Outcome.resolve), ("b", Outcome.rejection), ("c", Outcome.resolve)]

/-- Pause with a non-empty waiting list: submit A and B, `exec()` (A goes
in flight), `pause()`, then run all microtasks. -/
def c6PauseFinal : QueueState :=
  drain 4 (pause (exec (pushAll (initQueue defaultOptions)
    [("a", Outcome.resolve), ("b", Outcome.resolve)])))

/-- Pause with an empty waiting list: submit only A, `exec()`, `pause()`,
run all microtasks. -/
def c6FinishFinal : QueueState :=
  drain 4 (pause (exec (pushAll (initQueue defaultOptions) [("a", Outcome.resolve)])))

/-- A finished `continueWhenError` run whose finish list holds A with
`STATUS_FAILURE` and B with `STATUS_SUCCESS`. -/
def c8Before : QueueState :=
  runAll cweOptions [("a", Outcome.rejection), ("b", Outcome.resolve)]

/-- `retryAll()` called on that finished queue. -/
def c8After : QueueState := retryAll c8Before

/-- A running queue: A in flight, B waiting. -/
def runningAB : QueueState :=
  exec (pushAll (initQueue defaultOptions) [("a", Outcome.resolve), ("b", Outcome.resolve)])

/-- `retry` called on the running queue with a caller-constructed task
object whose id "b" is already tracked in the waiting list. -/
def c10Dup : QueueState :=
  retry runningAB { id := "b", status := TaskStatus.waiting, outcome := Outcome.resolve }

/-- The state reached by submitting A and B, `exec()`, `pause()` and
`exec()` again, before any microtask runs. -/
def c2Scenario : QueueState := exec (pause runningAB)

end AsyncQueue

namespace AsyncQueue

theorem setStatusById_append (id : String) (st : TaskStatus)
    (l1 l2 : List AsyncTaskItem) :
    setStatusById id st (l1 ++ l2) = setStatusById id st l1 ++ setStatusById id st l2 := by
  simp [setStatusById]

/-! ## Claim theorems: push, reset, pause, retry, retryAll, next -/

/-- C3: `push` with an id already tracked in one of the three lists invokes
the rejection callback with the error and the existing task and returns a
rejected acknowledgement, leaving the state untouched; `push` with a fresh
id (here under manual start, `immediate = false`) appends a new
`STATUS_WAITING` task to the tail of the waiting list and returns a
resolved acknowledgement. -/
theorem c3_push_dedup :
    (∀ (s : QueueState) (id : String) (o : Outcome) (t : AsyncTaskItem),
        findTaskById s id = some t →
        push s id o = (s, PushResult.rejected t))
    ∧ (∀ (s : QueueState) (id : String) (o : Outcome),
        isExist s id = false → s.options.immediate = false →
        push s id o =
          ({ s with waitList :=
              s.waitList ++ [{ id := id, status := TaskStatus.waiting, outcome := o }] },
            PushResult.resolved)) := by
  constructor
  · intro s id o t h
    simp [push, h]
  · intro s id o h him
    cases hf : findTaskById s id with
    | some t => rw [isExist, hf] at h; simp at h
    | none => simp [push, hf, him]

/-- C7: `reset` on a non-running queue concatenates the finished list onto
the tail of the waiting list, clears the finished list, resets every task
of the merged waiting list to `STATUS_WAITING`, and leaves the queue-level
status (and the in-flight list) untouched; `reset` on a running queue
invokes the rejection callback, returns a rejected acknowledgement, and
changes nothing. -/
theorem c7_reset_merge :
    (∀ s : QueueState, s.status ≠ QueueStatus.qRunning →
        reset s =
          ({ s with
              waitList := (s.waitList ++ s.finishList).map
                fun t => { t with status := TaskStatus.waiting },
              finishList := [] }, ResetResult.completed))
    ∧ (∀ s : QueueState, s.status = QueueStatus.qRunning →
        reset s = (s, ResetResult.rejected)) := by
  constructor
  · intro s h; simp [reset, h]
  · intro s h; simp [reset, h]

/-- C6: `pause` is a no-op when the queue is not running; on a running
queue it only flips the status to `BEFORE_PAUSE`, touching no list, no task
status and no event (the in-flight task is never interrupted); `next` is a
no-op while the status is `BEFORE_PAUSE` (no new task can start); and in
the two concrete drained scenarios the queue ends in `PAUSE` (waiting list
non-empty; pause event published, the in-flight task settled as
`STATUS_SUCCESS`, the waiting task never started) respectively `FINISH`
(waiting list empty; finish event published). -/
theorem c6_pause_boundary :
    (∀ s : QueueState, s.status ≠ QueueStatus.qRunning → pause s = s)
    ∧ (∀ s : QueueState, s.status = QueueStatus.qRunning →
        (pause s).status = QueueStatus.qBeforePause
        ∧ (pause s).waitList = s.waitList
        ∧ (pause s).excuteList = s.excuteList
        ∧ (pause s).finishList = s.finishList
        ∧ (pause s).events = s.events)
    ∧ (∀ s : QueueState, s.status = QueueStatus.qBeforePause → next s = s)
    ∧ (c6PauseFinal.status = QueueStatus.qPause
        ∧ c6PauseFinal.events =
            [Event.queueStart, Event.taskStart "a" TaskStatus.waiting,
              Event.taskSuccess "a", Event.queuePause]
        ∧ c6PauseFinal.waitList =
            [{ id := "b", status := TaskStatus.waiting, outcome := Outcome.resolve }]
        ∧ c6PauseFinal.finishList =
            [{ id := "a", status := TaskStatus.success, outcome := Outcome.resolve }]
        ∧ c6PauseFinal.mts = [])
    ∧ (c6FinishFinal.status = QueueStatus.qFinish
        ∧ c6FinishFinal.events =
            [Event.queueStart, Event.taskStart "a" TaskStatus.waiting,
              Event.taskSuccess "a", Event.queueFinish]
        ∧ c6FinishFinal.mts = []) := by
  refine ⟨?_, ?_, ?_, by decide, by decide⟩
  · intro s h
    simp [pause, h]
  · intro s h
    by_cases he : s.excuteList = [] <;> simp [pause, h, he]
  · intro s h
    simp [next, h]

/-- C10: `retry` performs no duplicate-id check: on a running queue (where
the `exec()` it triggers is a warning no-op) it removes the first finished
entry with the task's id — leaving the finished list untouched when the id
is not there — and unconditionally appends the given task object to the
tail of the waiting list; concretely, retrying a caller-constructed task
whose id "b" is already tracked in the waiting list leaves two tracked
entries sharing the id "b". -/
theorem c10_retry_no_dedup :
    (∀ (s : QueueState) (t : AsyncTaskItem), s.status = QueueStatus.qRunning →
        (retry s t).waitList = s.waitList ++ [t]
        ∧ (retry s t).finishList = eraseFirstById s.finishList t.id
        ∧ (t.id ∉ s.finishList.map (fun x => x.id) →
            (retry s t).finishList = s.finishList)
        ∧ (retry s t).excuteList = s.excuteList)
    ∧ runningAB.status = QueueStatus.qRunning
    ∧ runningAB.waitList =
        [{ id := "b", status := TaskStatus.waiting, outcome := Outcome.resolve }]
    ∧ countId c10Dup "b" = 2 := by
  refine ⟨?_, by decide, by decide, by decide⟩
  intro s t h
  rw [retry_running s t h]
  refine ⟨rfl, rfl, ?_, rfl⟩
  intro hm
  exact eraseFirstById_of_not_mem _ _ hm

/-- C8 (amended): on a running queue `retryAll` appends every
`STATUS_FAILURE` task of the finished list, in finished-list order, to the
tail of the waiting list — without resetting their status — and leaves the
finished list holding exactly the `STATUS_SUCCESS` tasks, unchanged.  (On a
non-running queue the `exec()` inside `retry` additionally starts the first
retried task at once; see the counterexample.) -/
theorem c8_retryAll_amended (s : QueueState) (h : s.status = QueueStatus.qRunning) :
    (retryAll s).waitList =
      s.waitList ++ s.finishList.filter (fun t => t.status = TaskStatus.failure)
    ∧ (retryAll s).finishList =
        s.finishList.filter (fun t => t.status = TaskStatus.success)
    ∧ (retryAll s).excuteList = s.excuteList
    ∧ (retryAll s).status = QueueStatus.qRunning
    ∧ (retryAll s).events = s.events := by
  simp only [retryAll]
  rw [foldl_retry_running _ s h]
  simp [h]

/-- C8 (counterexample): on a finished `continueWhenError` run whose
finished list is A (`STATUS_FAILURE`) then B (`STATUS_SUCCESS`),
`retryAll()` does not leave A waiting: the `exec()` inside `retry`
immediately picks A up, so afterwards the waiting list is empty and A sits
in the in-flight list with status `STATUS_PEDDING`, not `STATUS_WAITING`. -/
theorem c8_counterexample :
    c8Before.status = QueueStatus.qFinish
    ∧ c8Before.finishList =
        [{ id := "a", status := TaskStatus.failure, outcome := Outcome.rejection },
          { id := "b", status := TaskStatus.success, outcome := Outcome.resolve }]
    ∧ c8After.waitList = []
    ∧ c8After.excuteList =
        [{ id := "a", status := TaskStatus.pedding, outcome := Outcome.rejection }]
    ∧ c8After.finishList =
        [{ id := "b", status := TaskStatus.success, outcome := Outcome.resolve }] := by
  decide

/-- C9 (amended): when `next()` picks up the head of the waiting list it
moves the task to the in-flight list, publishes the start notification
carrying the task's pre-pickup status — the `STATUS_PEDDING` write happens
only after the publish — and then marks the task `STATUS_PEDDING` and
invokes its execute operation. -/
theorem c9_next_start_order (s : QueueState) (t : AsyncTaskItem)
    (rest : List AsyncTaskItem)
    (hbp : s.status ≠ QueueStatus.qBeforePause)
    (hw : s.waitList = t :: rest) :
    (next s).events = s.events ++ [Event.taskStart t.id t.status]
    ∧ (next s).mts = s.mts ++ [Microtask.thenCb t.id t.outcome]
    ∧ (t.id ∉ s.excuteList.map (fun x => x.id) →
        (next s).excuteList = s.excuteList ++ [{ t with status := TaskStatus.pedding }])
    ∧ (t.id ∉ rest.map (fun x => x.id) → (next s).waitList = rest) := by
  unfold next
  rw [if_neg hbp, hw]
  refine ⟨?_, ?_, ?_, ?_⟩
  · simp [emit, writeStatus]
  · simp [emit, writeStatus]
  · intro hm
    simp only [emit, writeStatus]
    rw [setStatusById_append, setStatusById_of_not_mem _ _ _ hm]
    simp [setStatusById]
  · intro hm
    simp only [emit, writeStatus]
    exact setStatusById_of_not_mem _ _ _ hm

/-- C9 (counterexample): submitting task "a" and calling `exec()` publishes
the start notification while the payload task's status is still
`STATUS_WAITING`, not `STATUS_PEDDING`: the source emits
`EVENT_TASK_START` before the `task.status = STATUS_PEDDING` write. -/
theorem c9_counterexample :
    (exec (pushAll (initQueue defaultOptions) [("a", Outcome.resolve)])).events
      = [Event.queueStart, Event.taskStart "a" TaskStatus.waiting]
    ∧ TaskStatus.waiting ≠ TaskStatus.pedding := by
  decide

/-- C2 (counterexample): after submitting A and B, calling `exec()`,
`pause()` and `exec()` again — a sequence of public operations — both A and
B hold `STATUS_PEDDING` at the same instant and the in-flight list holds
two entries. -/
theorem c2_counterexample :
    c2Scenario.excuteList =
      [{ id := "a", status := TaskStatus.pedding, outcome := Outcome.resolve },
        { id := "b", status := TaskStatus.pedding, outcome := Outcome.resolve }]
    ∧ pendingCount c2Scenario = 2 := by
  decide

/-- C4: with `continueWhenError = false` and tasks A (succeeds), B (fails),
C (succeeds), after `exec()` only A and B are started (their start events
are the only ones), B's failure is recorded, C stays `STATUS_WAITING` in
the waiting list with no start notification, the queue is left straddling
`RUNNING`, and no microtask remains: the queue makes no further progress on
its own. -/
theorem c4_halt_on_failure :
    startedIds c4Final.events = ["a", "b"]
    ∧ c4Final.events =
        [Event.queueStart, Event.taskStart "a" TaskStatus.waiting,
          Event.taskSuccess "a", Event.taskStart "b" TaskStatus.waiting,
          Event.taskFailure "b"]
    ∧ c4Final.waitList =
        [{ id := "c", status := TaskStatus.waiting, outcome := Outcome.resolve }]
    ∧ c4Final.finishList =
        [{ id := "a", status := TaskStatus.success, outcome := Outcome.resolve },
          { id := "b", status := TaskStatus.failure, outcome := Outcome.rejection }]
    ∧ c4Final.status = QueueStatus.qRunning
    ∧ c4Final.mts = []
    ∧ ∀ n : Nat, drain n c4Final = c4Final := by
  refine ⟨by decide, by decide, by decide, by decide, by decide, by decide, ?_⟩
  intro n
  exact drain_of_mts_eq_nil n c4Final (by decide)

/-- C5: with `continueWhenError = true` and the same three tasks, all three
run in order, B ends `STATUS_FAILURE` while A and C end `STATUS_SUCCESS`,
and the queue-finish event is published exactly once, after C's success
event. -/
theorem c5_continue_on_failure :
    c5Final.events =
      [Event.queueStart,
        Event.taskStart "a" TaskStatus.waiting, Event.taskSuccess "a",
        Event.taskStart "b" TaskStatus.waiting, Event.taskFailure "b",
        Event.taskStart "c" TaskStatus.waiting, Event.taskSuccess "c",
        Event.queueFinish]
    ∧ c5Final.events.count Event.queueFinish = 1
    ∧ c5Final.finishList =
        [{ id := "a", status := TaskStatus.success, outcome := Outcome.resolve },
          { id := "b", status := TaskStatus.failure, outcome := Outcome.rejection },
          { id := "c", status := TaskStatus.success, outcome := Outcome.resolve }]
    ∧ c5Final.status = QueueStatus.qFinish
    ∧ c5Final.mts = [] := by
  decide

end AsyncQueue

namespace AsyncQueue

/-! ## Infrastructure for run-wide invariants -/

/-- The ids of the waiting list, in order. -/
def waitIds (s : QueueState) : List String :=
  s.waitList.map fun t => t.id

theorem next_bp (s : QueueState) (h : s.status = QueueStatus.qBeforePause) :
    next s = s := by
  simp [next, h]

theorem ids_setStatusById (id : String) (st : TaskStatus) (l : List AsyncTaskItem) :
    (setStatusById id st l).map (fun t => t.id) = l.map fun t => t.id := by
  induction l with
  | nil => rfl
  | cons t rest ih =>
      simp only [setStatusById, List.map_cons] at ih ⊢
      rw [ih]
      by_cases ht : t.id = id
      · simp [ht]
      · simp [ht]

theorem startedIds_append (l1 l2 : List Event) :
    startedIds (l1 ++ l2) = startedIds l1 ++ startedIds l2 := by
  simp [startedIds, List.filterMap_append]

/-- `next` preserves the concatenation of started ids and waiting ids: it
either starts exactly the waiting head or touches neither. -/
theorem next_startedIds (s : QueueState) :
    startedIds (next s).events ++ waitIds (next s)
      = startedIds s.events ++ waitIds s := by
  by_cases hbp : s.status = QueueStatus.qBeforePause
  · rw [next_bp s hbp]
  · cases hw : s.waitList with
    | nil =>
        unfold next
        rw [if_neg hbp, hw]
        simp [emit, startedIds_append, waitIds, hw, startedIds]
    | cons t rest =>
        unfold next
        rw [if_neg hbp, hw]
        simp only [emit, writeStatus]
        simp [startedIds_append, waitIds, ids_setStatusById, hw, startedIds]

end AsyncQueue

namespace AsyncQueue

/-! ## Projection and characterization lemmas for the step functions -/

@[simp] theorem emit_waitList (s : QueueState) (e : Event) : (emit s e).waitList = s.waitList := rfl

@[simp] theorem emit_excuteList (s : QueueState) (e : Event) : (emit s e).excuteList = s.excuteList := rfl

@[simp] theorem emit_finishList (s : QueueState) (e : Event) : (emit s e).finishList = s.finishList := rfl

@[simp] theorem emit_status (s : QueueState) (e : Event) : (emit s e).status = s.status := rfl

@[simp] theorem emit_options (s : QueueState) (e : Event) : (emit s e).options = s.options := rfl

@[simp] theorem emit_mts (s : QueueState) (e : Event) : (emit s e).mts = s.mts := rfl

@[simp] theorem emit_pausePending (s : QueueState) (e : Event) : (emit s e).pausePending = s.pausePending := rfl

@[simp] theorem emit_events (s : QueueState) (e : Event) : (emit s e).events = s.events ++ [e] := rfl

@[simp] theorem writeStatus_waitList (s : QueueState) (id : String) (st : TaskStatus) :
    (writeStatus s id st).waitList = setStatusById id st s.waitList := rfl

@[simp] theorem writeStatus_excuteList (s : QueueState) (id : String) (st : TaskStatus) :
    (writeStatus s id st).excuteList = setStatusById id st s.excuteList := rfl

@[simp] theorem writeStatus_finishList (s : QueueState) (id : String) (st : TaskStatus) :
    (writeStatus s id st).finishList = setStatusById id st s.finishList := rfl

@[simp] theorem writeStatus_status (s : QueueState) (id : String) (st : TaskStatus) :
    (writeStatus s id st).status = s.status := rfl

@[simp] theorem writeStatus_options (s : QueueState) (id : String) (st : TaskStatus) :
    (writeStatus s id st).options = s.options := rfl

@[simp] theorem writeStatus_mts (s : QueueState) (id : String) (st : TaskStatus) :
    (writeStatus s id st).mts = s.mts := rfl

@[simp] theorem writeStatus_pausePending (s : QueueState) (id : String) (st : TaskStatus) :
    (writeStatus s id st).pausePending = s.pausePending := rfl

@[simp] theorem writeStatus_events (s : QueueState) (id : String) (st : TaskStatus) :
    (writeStatus s id st).events = s.events := rfl

theorem dischargePause_none (s : QueueState) (id : String)
    (h : s.pausePending = none) : dischargePause s id = s := by
  simp [dischargePause, h]

theorem pushFinished_eq (s : QueueState) (id : String) :
    pushFinished s id =
      { s with finishList :=
          if s.options.removeAfterFinish = false then
            (match s.excuteList.find? (fun t => t.id = id) with
              | some task => s.finishList ++ [task]
              | none => s.finishList)
          else s.finishList } := by
  unfold pushFinished
  by_cases hraf : s.options.removeAfterFinish = false
  · rw [if_pos hraf, if_pos hraf]
    cases hfind : s.excuteList.find? (fun t => t.id = id) <;> simp [hfind]
  · rw [if_neg hraf, if_neg hraf]

@[simp] theorem pushFinished_waitList (s : QueueState) (id : String) :
    (pushFinished s id).waitList = s.waitList := by rw [pushFinished_eq]

@[simp] theorem pushFinished_excuteList (s : QueueState) (id : String) :
    (pushFinished s id).excuteList = s.excuteList := by rw [pushFinished_eq]

@[simp] theorem pushFinished_status (s : QueueState) (id : String) :
    (pushFinished s id).status = s.status := by rw [pushFinished_eq]

@[simp] theorem pushFinished_options (s : QueueState) (id : String) :
    (pushFinished s id).options = s.options := by rw [pushFinished_eq]

@[simp] theorem pushFinished_mts (s : QueueState) (id : String) :
    (pushFinished s id).mts = s.mts := by rw [pushFinished_eq]

@[simp] theorem pushFinished_pausePending (s : QueueState) (id : String) :
    (pushFinished s id).pausePending = s.pausePending := by rw [pushFinished_eq]

@[simp] theorem pushFinished_events (s : QueueState) (id : String) :
    (pushFinished s id).events = s.events := by rw [pushFinished_eq]

theorem next_nil (s : QueueState) (hbp : ¬ s.status = QueueStatus.qBeforePause)
    (hw : s.waitList = []) :
    next s = { s with status := QueueStatus.qFinish,
                      events := s.events ++ [Event.queueFinish] } := by
  unfold next
  rw [if_neg hbp, hw]
  rfl

theorem next_cons (s : QueueState) (t : AsyncTaskItem) (rest : List AsyncTaskItem)
    (hbp : ¬ s.status = QueueStatus.qBeforePause) (hw : s.waitList = t :: rest) :
    next s =
      { s with
        waitList := setStatusById t.id TaskStatus.pedding rest,
        excuteList := setStatusById t.id TaskStatus.pedding (s.excuteList ++ [t]),
        finishList := setStatusById t.id TaskStatus.pedding s.finishList,
        events := s.events ++ [Event.taskStart t.id t.status],
        mts := s.mts ++ [Microtask.thenCb t.id t.outcome] } := by
  unfold next
  rw [if_neg hbp, hw]
  rfl

theorem runThenCb_rejection (s : QueueState) (id : String) :
    runThenCb s id Outcome.rejection =
      { s with mts := s.mts ++ [Microtask.catchCb id Outcome.rejection] } := rfl

theorem runThenCb_resolve_stop (s : QueueState) (id : String)
    (hc : s.options.continueWhenError = true) :
    runThenCb s id Outcome.resolve =
      { s with
        waitList := setStatusById id TaskStatus.success s.waitList,
        excuteList := setStatusById id TaskStatus.success s.excuteList,
        finishList := setStatusById id TaskStatus.success s.finishList,
        events := s.events ++ [Event.taskSuccess id],
        mts := s.mts ++ [Microtask.catchCb id Outcome.resolve] } := by
  show (let s1 := writeStatus s id TaskStatus.success;
        let s2 := emit s1 (Event.taskSuccess id);
        let s3 := if s.options.continueWhenError = false then next s2 else s2;
        { s3 with mts := s3.mts ++ [Microtask.catchCb id Outcome.resolve] }) = _
  simp [hc]

theorem runThenCb_resolve_chain (s : QueueState) (id : String)
    (hc : s.options.continueWhenError = false) :
    runThenCb s id Outcome.resolve =
      { next (emit (writeStatus s id TaskStatus.success) (Event.taskSuccess id)) with
        mts := (next (emit (writeStatus s id TaskStatus.success) (Event.taskSuccess id))).mts
          ++ [Microtask.catchCb id Outcome.resolve] } := by
  show (let s1 := writeStatus s id TaskStatus.success;
        let s2 := emit s1 (Event.taskSuccess id);
        let s3 := if s.options.continueWhenError = false then next s2 else s2;
        { s3 with mts := s3.mts ++ [Microtask.catchCb id Outcome.resolve] }) = _
  simp only [hc, if_true]

theorem runCatchCb_resolve (s : QueueState) (id : String) :
    runCatchCb s id Outcome.resolve =
      { s with mts := s.mts ++ [Microtask.finallyCb id] } := rfl

theorem runCatchCb_rejection (s : QueueState) (id : String) :
    runCatchCb s id Outcome.rejection =
      { s with
        waitList := setStatusById id TaskStatus.failure s.waitList,
        excuteList := setStatusById id TaskStatus.failure s.excuteList,
        finishList := setStatusById id TaskStatus.failure s.finishList,
        events := s.events ++ [Event.taskFailure id],
        mts := s.mts ++ [Microtask.finallyCb id] } := rfl

theorem runFinallyCb_stop (s : QueueState) (id : String)
    (hp : s.pausePending = none)
    (hc : s.options.continueWhenError = false) :
    runFinallyCb s id =
      { pushFinished s id with excuteList := s.excuteList.drop 1 } := by
  unfold runFinallyCb
  simp only [hc]
  rw [dischargePause_none]
  · simp
  · simp [hp]

theorem runFinallyCb_chain (s : QueueState) (id : String)
    (hp : s.pausePending = none)
    (hc : s.options.continueWhenError = true) :
    runFinallyCb s id =
      { next (pushFinished s id) with
        excuteList := (next (pushFinished s id)).excuteList.drop 1 } := by
  unfold runFinallyCb
  simp only [hc, if_true]
  rw [dischargePause_none]
  by_cases hbp : (pushFinished s id).status = QueueStatus.qBeforePause
  · rw [next_bp _ hbp]
    simp [hp]
  · cases hw : (pushFinished s id).waitList with
    | nil => rw [next_nil _ hbp hw]; simp [hp]
    | cons t rest => rw [next_cons _ t rest hbp hw]; simp [hp]

theorem runPauseSettled_nil (s : QueueState) (hw : s.waitList = []) :
    runPauseSettled s =
      { s with status := QueueStatus.qFinish,
               events := s.events ++ [Event.queueFinish] } := by
  unfold runPauseSettled
  rw [if_pos hw]
  rfl

theorem runPauseSettled_cons (s : QueueState) (hw : ¬ s.waitList = []) :
    runPauseSettled s =
      { s with status := QueueStatus.qPause,
               events := s.events ++ [Event.queuePause] } := by
  unfold runPauseSettled
  rw [if_neg hw]
  rfl

end AsyncQueue

namespace AsyncQueue

/-! ## The submission phase -/

/-- The task record a fresh `push` creates for a `(id, outcome)` pair. -/
def taskOf (p : String × Outcome) : AsyncTaskItem :=
  { id := p.1, status := TaskStatus.waiting, outcome := p.2 }

theorem findTaskById_eq_none (s : QueueState) (id : String) :
    findTaskById s id = none ↔ ∀ t ∈ allTasks s, ¬ t.id = id := by
  unfold findTaskById
  cases hw : s.waitList.find? (fun t => t.id = id) with
  | some t =>
      simp only [allTasks]
      constructor
      · intro h; exact absurd h (by simp)
      · intro h
        have := List.find?_some hw
        have hmem := List.mem_of_find?_eq_some hw
        exact absurd (of_decide_eq_true this) (h t (by simp [hmem]))
  | none =>
      have hw' := List.find?_eq_none.mp hw
      cases he : s.excuteList.find? (fun t => t.id = id) with
      | some t =>
          simp only [allTasks]
          constructor
          · intro h; exact absurd h (by simp)
          · intro h
            have := List.find?_some he
            have hmem := List.mem_of_find?_eq_some he
            exact absurd (of_decide_eq_true this) (h t (by simp [hmem]))
      | none =>
          have he' := List.find?_eq_none.mp he
          constructor
          · intro hf t ht
            simp only [allTasks, List.mem_append, List.mem_append] at ht
            rcases ht with (htw | hte) | htf
            · exact fun hc => (hw' t htw) (by simp [hc])
            · exact fun hc => (he' t hte) (by simp [hc])
            · exact fun hc => (List.find?_eq_none.mp hf t htf) (by simp [hc])
          · intro h
            apply List.find?_eq_none.mpr
            intro t ht
            simp only [decide_eq_true_eq]
            exact h t (by simp [allTasks, ht])

theorem pushAll_fresh (ts : List (String × Outcome)) : ∀ s : QueueState,
    s.options.immediate = false →
    (ts.map Prod.fst).Nodup →
    (∀ p ∈ ts, findTaskById s p.1 = none) →
    pushAll s ts = { s with waitList := s.waitList ++ ts.map taskOf } := by
  induction ts with
  | nil => intro s _ _ _; simp [pushAll]
  | cons p ts' ih =>
      intro s him hnd hfresh
      have hp : findTaskById s p.1 = none := hfresh p (by simp)
      have hstep : pushAll s (p :: ts') =
          pushAll { s with waitList := s.waitList ++ [taskOf p] } ts' := by
        simp [pushAll, push, hp, him, taskOf]
      rw [hstep]
      have hnd' : (ts'.map Prod.fst).Nodup := by
        simpa using hnd.of_cons
      have hfresh' : ∀ q ∈ ts',
          findTaskById { s with waitList := s.waitList ++ [taskOf p] } q.1 = none := by
        intro q hq
        rw [findTaskById_eq_none]
        intro t ht
        simp only [allTasks, List.mem_append] at ht
        rcases ht with (htw | hte) | htf
        · rcases htw with htw' | htp
          · exact (findTaskById_eq_none s q.1).mp (hfresh q (by simp [hq])) t
              (by simp [allTasks, htw'])
          · have : t = taskOf p := by simpa using htp
            subst this
            intro hc
            have hne : q.1 ≠ p.1 := by
              have := List.nodup_cons.mp hnd
              intro hqp
              exact this.1 (hqp ▸ List.mem_map_of_mem Prod.fst hq)
            exact hne (Eq.symm (by simpa [taskOf] using hc))
        · exact (findTaskById_eq_none s q.1).mp (hfresh q (by simp [hq])) t
            (by simp [allTasks, hte])
        · exact (findTaskById_eq_none s q.1).mp (hfresh q (by simp [hq])) t
            (by simp [allTasks, htf])
      rw [ih { s with waitList := s.waitList ++ [taskOf p] } him hnd' hfresh']
      simp

theorem pushAll_initQueue (ts : List (String × Outcome)) (opts : AsyncQueueOptions)
    (him : opts.immediate = false) (hnd : (ts.map Prod.fst).Nodup) :
    pushAll (initQueue opts) ts = { initQueue opts with waitList := ts.map taskOf } := by
  rw [pushAll_fresh ts (initQueue opts) him hnd (fun p _ => rfl)]
  rfl

end AsyncQueue

namespace AsyncQueue

/-! ## Case analysis and preserved quantities of `next` -/

theorem next_cases (s : QueueState) (hbp : ¬ s.status = QueueStatus.qBeforePause) :
    (s.waitList = [] ∧ next s =
        { s with status := QueueStatus.qFinish, events := s.events ++ [Event.queueFinish] })
    ∨ ∃ t rest, s.waitList = t :: rest ∧ next s =
        { s with
          waitList := setStatusById t.id TaskStatus.pedding rest,
          excuteList := setStatusById t.id TaskStatus.pedding (s.excuteList ++ [t]),
          finishList := setStatusById t.id TaskStatus.pedding s.finishList,
          events := s.events ++ [Event.taskStart t.id t.status],
          mts := s.mts ++ [Microtask.thenCb t.id t.outcome] } := by
  cases hw : s.waitList with
  | nil =>
      refine Or.inl ⟨rfl, ?_⟩
      rw [next_nil s hbp hw, hw]
  | cons t rest => exact Or.inr ⟨t, rest, rfl, next_cons s t rest hbp hw⟩

theorem next_pausePending (s : QueueState) : (next s).pausePending = s.pausePending := by
  by_cases hbp : s.status = QueueStatus.qBeforePause
  · rw [next_bp s hbp]
  · rcases next_cases s hbp with ⟨_, hrw⟩ | ⟨t, rest, _, hrw⟩ <;> rw [hrw]

theorem next_options (s : QueueState) : (next s).options = s.options := by
  by_cases hbp : s.status = QueueStatus.qBeforePause
  · rw [next_bp s hbp]
  · rcases next_cases s hbp with ⟨_, hrw⟩ | ⟨t, rest, _, hrw⟩ <;> rw [hrw]

theorem next_status_ne_bp (s : QueueState) (h : ¬ s.status = QueueStatus.qBeforePause) :
    ¬ (next s).status = QueueStatus.qBeforePause := by
  rcases next_cases s h with ⟨_, hrw⟩ | ⟨t, rest, _, hrw⟩ <;> rw [hrw]
  · simp
  · exact h

theorem length_setStatusById (id : String) (st : TaskStatus) (l : List AsyncTaskItem) :
    (setStatusById id st l).length = l.length := by
  simp [setStatusById]

theorem fuelMeasure_next (s : QueueState) : fuelMeasure (next s) = fuelMeasure s := by
  by_cases hbp : s.status = QueueStatus.qBeforePause
  · rw [next_bp s hbp]
  · rcases next_cases s hbp with ⟨hw, hrw⟩ | ⟨t, rest, hw, hrw⟩
    · rw [hrw]
      rfl
    · rw [hrw]
      simp only [fuelMeasure, length_setStatusById, List.map_append, List.sum_append, hw]
      simp [mtWeight]
      omega

end AsyncQueue

namespace AsyncQueue

/-! ## Per-microtask preservation facts -/

theorem runMicrotask_thenCb (s : QueueState) (id : String) (o : Outcome) :
    runMicrotask s (Microtask.thenCb id o) = runThenCb s id o := rfl

theorem runMicrotask_catchCb (s : QueueState) (id : String) (o : Outcome) :
    runMicrotask s (Microtask.catchCb id o) = runCatchCb s id o := rfl

theorem runMicrotask_finallyCb (s : QueueState) (id : String) :
    runMicrotask s (Microtask.finallyCb id) = runFinallyCb s id := rfl

theorem runMicrotask_pauseSettled (s : QueueState) :
    runMicrotask s Microtask.pauseSettled = runPauseSettled s := rfl

theorem startedIds_chainWrap (u : QueueState) (ms : List Microtask) :
    startedIds ({ next u with mts := ms } : QueueState).events
        ++ waitIds { next u with mts := ms }
      = startedIds u.events ++ waitIds u := by
  show startedIds (next u).events ++ waitIds (next u) = _
  exact next_startedIds u

theorem startedIds_dropWrap (u : QueueState) (l : List AsyncTaskItem) :
    startedIds ({ next u with excuteList := l } : QueueState).events
        ++ waitIds { next u with excuteList := l }
      = startedIds u.events ++ waitIds u := by
  show startedIds (next u).events ++ waitIds (next u) = _
  exact next_startedIds u

/-- One microtask never publishes a task-start event without removing
exactly that task from the head of the waiting list: the concatenation of
started ids and waiting ids is invariant. -/
theorem runMicrotask_startedIds (s : QueueState) (m : Microtask)
    (hp : s.pausePending = none) :
    startedIds (runMicrotask s m).events ++ waitIds (runMicrotask s m)
      = startedIds s.events ++ waitIds s := by
  cases m with
  | thenCb id o =>
      rw [runMicrotask_thenCb]
      cases o with
      | resolve =>
          cases hcb : s.options.continueWhenError with
          | false =>
              rw [runThenCb_resolve_chain s id hcb, startedIds_chainWrap]
              simp [waitIds, ids_setStatusById, startedIds_append, startedIds]
          | true =>
              rw [runThenCb_resolve_stop s id hcb]
              simp [waitIds, ids_setStatusById, startedIds_append, startedIds]
      | rejection =>
          rw [runThenCb_rejection]
          rfl
  | catchCb id o =>
      rw [runMicrotask_catchCb]
      cases o with
      | resolve =>
          rw [runCatchCb_resolve]
          rfl
      | rejection =>
          rw [runCatchCb_rejection]
          simp [waitIds, ids_setStatusById, startedIds_append, startedIds]
  | finallyCb id =>
      rw [runMicrotask_finallyCb]
      cases hcb : s.options.continueWhenError with
      | false =>
          rw [runFinallyCb_stop s id hp hcb]
          simp [waitIds]
      | true =>
          rw [runFinallyCb_chain s id hp hcb, startedIds_dropWrap]
          simp [waitIds]
  | pauseSettled =>
      rw [runMicrotask_pauseSettled]
      by_cases hw : s.waitList = []
      · rw [runPauseSettled_nil s hw]
        simp [waitIds, startedIds_append, startedIds]
      · rw [runPauseSettled_cons s hw]
        simp [waitIds, startedIds_append, startedIds]

theorem runMicrotask_pausePending (s : QueueState) (m : Microtask)
    (hp : s.pausePending = none) :
    (runMicrotask s m).pausePending = none := by
  cases m with
  | thenCb id o =>
      rw [runMicrotask_thenCb]
      cases o with
      | resolve =>
          cases hcb : s.options.continueWhenError with
          | false =>
              rw [runThenCb_resolve_chain s id hcb]
              show (next _).pausePending = none
              rw [next_pausePending]
              exact hp
          | true =>
              rw [runThenCb_resolve_stop s id hcb]
              exact hp
      | rejection =>
          rw [runThenCb_rejection]
          exact hp
  | catchCb id o =>
      rw [runMicrotask_catchCb]
      cases o with
      | resolve => rw [runCatchCb_resolve]; exact hp
      | rejection => rw [runCatchCb_rejection]; exact hp
  | finallyCb id =>
      rw [runMicrotask_finallyCb]
      cases hcb : s.options.continueWhenError with
      | false =>
          rw [runFinallyCb_stop s id hp hcb]
          show (pushFinished s id).pausePending = none
          simp [hp]
      | true =>
          rw [runFinallyCb_chain s id hp hcb]
          show (next (pushFinished s id)).pausePending = none
          rw [next_pausePending]
          simp [hp]
  | pauseSettled =>
      rw [runMicrotask_pauseSettled]
      by_cases hw : s.waitList = []
      · rw [runPauseSettled_nil s hw]; exact hp
      · rw [runPauseSettled_cons s hw]; exact hp

theorem fuelMeasure_addMts (u : QueueState) (extra : List Microtask) :
    fuelMeasure { u with mts := u.mts ++ extra }
      = fuelMeasure u + (extra.map mtWeight).sum := by
  simp [fuelMeasure, List.map_append, List.sum_append]
  omega

theorem fuelMeasure_pushFinished (u : QueueState) (id : String) :
    fuelMeasure (pushFinished u id) = fuelMeasure u := by
  simp [fuelMeasure]

/-- Each microtask step decreases the measure by exactly one (in a run
without an active `pause`). -/
theorem fuelMeasure_step (s : QueueState) (m : Microtask) (rest : List Microtask)
    (hm : s.mts = m :: rest) (hp : s.pausePending = none) :
    fuelMeasure (runMicrotask { s with mts := rest } m) + 1 = fuelMeasure s := by
  have hfs : fuelMeasure s = 3 * s.waitList.length + mtWeight m + (rest.map mtWeight).sum := by
    simp [fuelMeasure, hm]
    omega
  cases m with
  | thenCb id o =>
      rw [runMicrotask_thenCb]
      cases o with
      | resolve =>
          cases hcb : s.options.continueWhenError with
          | false =>
              rw [runThenCb_resolve_chain { s with mts := rest } id hcb]
              have h1 : fuelMeasure
                  ({ next (emit (writeStatus { s with mts := rest } id TaskStatus.success)
                        (Event.taskSuccess id)) with
                    mts := (next (emit (writeStatus { s with mts := rest } id TaskStatus.success)
                        (Event.taskSuccess id))).mts
                      ++ [Microtask.catchCb id Outcome.resolve] } : QueueState)
                  = fuelMeasure (next (emit (writeStatus { s with mts := rest } id TaskStatus.success)
                        (Event.taskSuccess id))) + 2 := by
                rw [fuelMeasure_addMts]
                simp [mtWeight]
              rw [h1, fuelMeasure_next]
              have h2 : fuelMeasure (emit (writeStatus { s with mts := rest } id TaskStatus.success)
                    (Event.taskSuccess id))
                  = 3 * s.waitList.length + (rest.map mtWeight).sum := by
                simp [fuelMeasure, length_setStatusById]
              rw [h2, hfs]
              simp [mtWeight]
              omega
          | true =>
              rw [runThenCb_resolve_stop { s with mts := rest } id hcb, hfs]
              simp [fuelMeasure, length_setStatusById, List.map_append, List.sum_append,
                mtWeight]
              omega
      | rejection =>
          rw [runThenCb_rejection, hfs]
          simp [fuelMeasure, List.map_append, List.sum_append, mtWeight]
          omega
  | catchCb id o =>
      rw [runMicrotask_catchCb]
      cases o with
      | resolve =>
          rw [runCatchCb_resolve, hfs]
          simp [fuelMeasure, List.map_append, List.sum_append, mtWeight]
          omega
      | rejection =>
          rw [runCatchCb_rejection, hfs]
          simp [fuelMeasure, length_setStatusById, List.map_append, List.sum_append,
            mtWeight]
          omega
  | finallyCb id =>
      rw [runMicrotask_finallyCb]
      cases hcb : s.options.continueWhenError with
      | false =>
          rw [runFinallyCb_stop { s with mts := rest } id hp hcb]
          have : fuelMeasure ({ pushFinished { s with mts := rest } id with
              excuteList := ({ s with mts := rest } : QueueState).excuteList.drop 1 } : QueueState)
              = fuelMeasure (pushFinished { s with mts := rest } id) := rfl
          rw [this, fuelMeasure_pushFinished, hfs]
          simp only [fuelMeasure, mtWeight]
          omega
      | true =>
          rw [runFinallyCb_chain { s with mts := rest } id hp hcb]
          have : fuelMeasure ({ next (pushFinished { s with mts := rest } id) with
              excuteList := (next (pushFinished { s with mts := rest } id)).excuteList.drop 1 } : QueueState)
              = fuelMeasure (next (pushFinished { s with mts := rest } id)) := rfl
          rw [this, fuelMeasure_next, fuelMeasure_pushFinished, hfs]
          simp only [fuelMeasure, mtWeight]
          omega
  | pauseSettled =>
      rw [runMicrotask_pauseSettled]
      by_cases hw : ({ s with mts := rest } : QueueState).waitList = []
      · rw [runPauseSettled_nil _ hw, hfs]
        simp only [fuelMeasure, mtWeight]
        omega
      · rw [runPauseSettled_cons _ hw, hfs]
        simp only [fuelMeasure, mtWeight]
        omega

end AsyncQueue

namespace AsyncQueue

/-! ## The C1 run invariant: all-resolving submissions, no pause -/

/-- Invariant of a run of instantaneously-resolving tasks started by a
single `exec()` with no `pause()` interference: every waiting task
resolves, the queue is not pausing, every pending `.then` reaction is a
resolution, and as long as tasks are waiting the microtask queue contains
the reaction that will start the following task. -/
structure RunInv (s : QueueState) : Prop where
  waitResolve : ∀ t ∈ s.waitList, t.outcome = Outcome.resolve
  notBP : ¬ s.status = QueueStatus.qBeforePause
  noPP : s.pausePending = none
  noPS : Microtask.pauseSettled ∉ s.mts
  thenRes : ∀ id o, Microtask.thenCb id o ∈ s.mts → o = Outcome.resolve
  prog : s.waitList ≠ [] →
    (s.options.continueWhenError = false →
      ∃ id, Microtask.thenCb id Outcome.resolve ∈ s.mts)
    ∧ (s.options.continueWhenError = true → s.mts ≠ [])

theorem waitResolve_setStatusById (id : String) (st : TaskStatus)
    (l : List AsyncTaskItem) (h : ∀ t ∈ l, t.outcome = Outcome.resolve) :
    ∀ t ∈ setStatusById id st l, t.outcome = Outcome.resolve := by
  intro t' ht'
  simp only [setStatusById, List.mem_map] at ht'
  obtain ⟨t, htl, heq⟩ := ht'
  by_cases hid : t.id = id
  · rw [← heq]
    simp [hid]
    exact h t htl
  · rw [← heq]
    simp [hid]
    exact h t htl

theorem mtWeight_pos (m : Microtask) : 1 ≤ mtWeight m := by
  cases m <;> simp [mtWeight]

theorem drain_succ_cons (k : Nat) (s : QueueState) (m : Microtask)
    (rest : List Microtask) (hm : s.mts = m :: rest) :
    drain (k + 1) s = drain k (runMicrotask { s with mts := rest } m) := by
  rw [drain, hm]

end AsyncQueue

namespace AsyncQueue

/-- One microtask step preserves the run invariant. -/
theorem runInv_step (s : QueueState) (m : Microtask) (rest : List Microtask)
    (hm : s.mts = m :: rest) (inv : RunInv s) :
    RunInv (runMicrotask { s with mts := rest } m) := by
  have noPS' : Microtask.pauseSettled ∉ rest := fun h =>
    inv.noPS (by rw [hm]; exact List.mem_cons_of_mem _ h)
  have thenRes' : ∀ id o, Microtask.thenCb id o ∈ rest → o = Outcome.resolve :=
    fun id o h => inv.thenRes id o (by rw [hm]; exact List.mem_cons_of_mem _ h)
  cases m with
  | pauseSettled =>
      exact absurd (by rw [hm]; exact List.mem_cons_self _ _) inv.noPS
  | thenCb id o =>
      have ho : o = Outcome.resolve :=
        inv.thenRes id o (by rw [hm]; exact List.mem_cons_self _ _)
      subst ho
      rw [runMicrotask_thenCb]
      cases hcb : s.options.continueWhenError with
      | true =>
          rw [runThenCb_resolve_stop { s with mts := rest } id hcb]
          refine ⟨?_, ?_, ?_, ?_, ?_, ?_⟩
          · exact waitResolve_setStatusById _ _ _ inv.waitResolve
          · exact inv.notBP
          · exact inv.noPP
          · intro hmem
            rcases List.mem_append.mp hmem with h | h
            · exact noPS' h
            · simp at h
          · intro id' o' hmem
            rcases List.mem_append.mp hmem with h | h
            · exact thenRes' id' o' h
            · simp at h
          · intro _
            constructor
            · intro hcf
              rw [hcb] at hcf
              simp at hcf
            · intro _
              simp
      | false =>
          rw [runThenCb_resolve_chain { s with mts := rest } id hcb]
          have hbp2 : ¬ (emit (writeStatus { s with mts := rest } id TaskStatus.success)
              (Event.taskSuccess id)).status = QueueStatus.qBeforePause := inv.notBP
          rcases next_cases _ hbp2 with ⟨hw2, hrw2⟩ | ⟨t, rest2, hw2, hrw2⟩
          · rw [hrw2]
            refine ⟨?_, ?_, ?_, ?_, ?_, ?_⟩
            · exact waitResolve_setStatusById _ _ _ inv.waitResolve
            · simp
            · exact inv.noPP
            · intro hmem
              rcases List.mem_append.mp hmem with h | h
              · exact noPS' h
              · simp at h
            · intro id' o' hmem
              rcases List.mem_append.mp hmem with h | h
              · exact thenRes' id' o' h
              · simp at h
            · intro hwne
              exact absurd hw2 hwne
          · rw [hrw2]
            have htres : t.outcome = Outcome.resolve := by
              have ht : t ∈ (emit (writeStatus { s with mts := rest } id TaskStatus.success)
                  (Event.taskSuccess id)).waitList := by
                rw [hw2]; exact List.mem_cons_self _ _
              exact waitResolve_setStatusById _ _ _ inv.waitResolve t ht
            have hrest2 : ∀ t' ∈ rest2, t'.outcome = Outcome.resolve := by
              intro t' ht'
              have ht : t' ∈ (emit (writeStatus { s with mts := rest } id TaskStatus.success)
                  (Event.taskSuccess id)).waitList := by
                rw [hw2]; exact List.mem_cons_of_mem _ ht'
              exact waitResolve_setStatusById _ _ _ inv.waitResolve t' ht
            refine ⟨?_, ?_, ?_, ?_, ?_, ?_⟩
            · exact waitResolve_setStatusById _ _ _ hrest2
            · exact inv.notBP
            · exact inv.noPP
            · intro hmem
              rcases List.mem_append.mp hmem with h | h
              · rcases List.mem_append.mp h with h' | h'
                · exact noPS' h'
                · simp at h'
              · simp at h
            · intro id' o' hmem
              rcases List.mem_append.mp hmem with h | h
              · rcases List.mem_append.mp h with h' | h'
                · exact thenRes' id' o' h'
                · simp only [List.mem_singleton, Microtask.thenCb.injEq] at h'
                  rw [h'.2]
                  exact htres
              · simp at h
            · intro _
              constructor
              · intro _
                refine ⟨t.id, ?_⟩
                rw [← htres]
                exact List.mem_append.mpr
                  (Or.inl (List.mem_append.mpr (Or.inr (List.mem_singleton.mpr rfl))))
              · intro _
                simp
  | catchCb id o =>
      rw [runMicrotask_catchCb]
      have hprog : ({ s with mts := rest } : QueueState).waitList ≠ [] →
          (s.options.continueWhenError = false →
            ∃ idw, Microtask.thenCb idw Outcome.resolve ∈ rest)
          ∧ (s.options.continueWhenError = true → True) := by
        intro hwne
        refine ⟨?_, fun _ => trivial⟩
        intro hcf
        obtain ⟨idw, hidw⟩ := (inv.prog hwne).1 hcf
        rw [hm] at hidw
        rcases List.mem_cons.mp hidw with h | h
        · exact absurd h (by simp)
        · exact ⟨idw, h⟩
      cases o with
      | resolve =>
          rw [runCatchCb_resolve]
          refine ⟨inv.waitResolve, inv.notBP, inv.noPP, ?_, ?_, ?_⟩
          · intro hmem
            rcases List.mem_append.mp hmem with h | h
            · exact noPS' h
            · simp at h
          · intro id' o' hmem
            rcases List.mem_append.mp hmem with h | h
            · exact thenRes' id' o' h
            · simp at h
          · intro hwne
            refine ⟨?_, ?_⟩
            · intro hcf
              obtain ⟨idw, hidw⟩ := (hprog hwne).1 hcf
              exact ⟨idw, List.mem_append.mpr (Or.inl hidw)⟩
            · intro _
              simp
      | rejection =>
          rw [runCatchCb_rejection]
          refine ⟨?_, inv.notBP, inv.noPP, ?_, ?_, ?_⟩
          · exact waitResolve_setStatusById _ _ _ inv.waitResolve
          · intro hmem
            rcases List.mem_append.mp hmem with h | h
            · exact noPS' h
            · simp at h
          · intro id' o' hmem
            rcases List.mem_append.mp hmem with h | h
            · exact thenRes' id' o' h
            · simp at h
          · intro hwne
            have hwne' : ({ s with mts := rest } : QueueState).waitList ≠ [] := by
              intro h0
              apply hwne
              show setStatusById id TaskStatus.failure
                  ({ s with mts := rest } : QueueState).waitList = []
              rw [h0]
              rfl
            refine ⟨?_, ?_⟩
            · intro hcf
              obtain ⟨idw, hidw⟩ := (hprog hwne').1 hcf
              exact ⟨idw, List.mem_append.mpr (Or.inl hidw)⟩
            · intro _
              simp
  | finallyCb id =>
      rw [runMicrotask_finallyCb]
      have hprogf : s.waitList ≠ [] →
          (s.options.continueWhenError = false →
            ∃ idw, Microtask.thenCb idw Outcome.resolve ∈ rest) := by
        intro hwne hcf
        obtain ⟨idw, hidw⟩ := (inv.prog hwne).1 hcf
        rw [hm] at hidw
        rcases List.mem_cons.mp hidw with h | h
        · exact absurd h (by simp)
        · exact ⟨idw, h⟩
      cases hcb : s.options.continueWhenError with
      | false =>
          rw [runFinallyCb_stop { s with mts := rest } id inv.noPP hcb]
          refine ⟨?_, ?_, ?_, ?_, ?_, ?_⟩
          · intro t ht
            simp only [pushFinished_waitList] at ht
            exact inv.waitResolve t ht
          · simp only [pushFinished_status]
            exact inv.notBP
          · simp only [pushFinished_pausePending]
            exact inv.noPP
          · intro hmem
            simp only [pushFinished_mts] at hmem
            exact noPS' hmem
          · intro id' o' hmem
            simp only [pushFinished_mts] at hmem
            exact thenRes' id' o' hmem
          · intro hwne
            simp only [pushFinished_waitList] at hwne
            refine ⟨?_, ?_⟩
            · intro hcf
              simp only [pushFinished_options] at hcf
              obtain ⟨idw, hidw⟩ := hprogf hwne hcf
              simp only [pushFinished_mts]
              exact ⟨idw, hidw⟩
            · intro hct
              simp only [pushFinished_options] at hct
              rw [hcb] at hct
              simp at hct
      | true =>
          rw [runFinallyCb_chain { s with mts := rest } id inv.noPP hcb]
          have hbp2 : ¬ (pushFinished { s with mts := rest } id).status
              = QueueStatus.qBeforePause := by
            simp only [pushFinished_status]
            exact inv.notBP
          rcases next_cases _ hbp2 with ⟨hw2, hrw2⟩ | ⟨t, rest2, hw2, hrw2⟩
          · rw [hrw2]
            refine ⟨?_, ?_, ?_, ?_, ?_, ?_⟩
            · intro t ht
              simp only [pushFinished_waitList] at ht
              exact inv.waitResolve t ht
            · simp
            · simp only [pushFinished_pausePending]
              exact inv.noPP
            · intro hmem
              simp only [pushFinished_mts] at hmem
              exact noPS' hmem
            · intro id' o' hmem
              simp only [pushFinished_mts] at hmem
              exact thenRes' id' o' hmem
            · intro hwne
              exact absurd hw2 hwne
          · rw [hrw2]
            rw [pushFinished_waitList] at hw2
            have hw2' : s.waitList = t :: rest2 := hw2
            have htres : t.outcome = Outcome.resolve :=
              inv.waitResolve t (by rw [hw2']; exact List.mem_cons_self _ _)
            have hrest2 : ∀ t' ∈ rest2, t'.outcome = Outcome.resolve := by
              intro t' ht'
              exact inv.waitResolve t' (by rw [hw2']; exact List.mem_cons_of_mem _ ht')
            refine ⟨?_, ?_, ?_, ?_, ?_, ?_⟩
            · exact waitResolve_setStatusById _ _ _ hrest2
            · simp only [pushFinished_status]
              exact inv.notBP
            · simp only [pushFinished_pausePending]
              exact inv.noPP
            · intro hmem
              rcases List.mem_append.mp hmem with h | h
              · simp only [pushFinished_mts] at h
                exact noPS' h
              · simp at h
            · intro id' o' hmem
              rcases List.mem_append.mp hmem with h | h
              · simp only [pushFinished_mts] at h
                exact thenRes' id' o' h
              · simp only [List.mem_singleton, Microtask.thenCb.injEq] at h
                rw [h.2]
                exact htres
            · intro _
              refine ⟨?_, ?_⟩
              · intro hcf
                simp only [pushFinished_options] at hcf
                rw [hcb] at hcf
                simp at hcf
              · intro _
                simp

end AsyncQueue

namespace AsyncQueue

theorem stuck_waitList_nil (s : QueueState) (inv : RunInv s) (hmts : s.mts = []) :
    s.waitList = [] := by
  by_contra hne
  cases hcb : s.options.continueWhenError with
  | false =>
      obtain ⟨idw, hidw⟩ := (inv.prog hne).1 hcb
      rw [hmts] at hidw
      simp at hidw
  | true =>
      exact (inv.prog hne).2 hcb hmts

/-- Under the run invariant, draining `fuelMeasure s` microtasks empties
both the waiting list and the microtask queue: the run completes. -/
theorem drain_runInv_complete (n : Nat) : ∀ s : QueueState, RunInv s →
    fuelMeasure s = n → (drain n s).waitList = [] ∧ (drain n s).mts = [] := by
  induction n with
  | zero =>
      intro s inv h0
      have hmts : s.mts = [] := by
        cases hmt : s.mts with
        | nil => rfl
        | cons m r =>
            exfalso
            have h1 : 1 ≤ (s.mts.map mtWeight).sum := by
              rw [hmt]
              simp only [List.map_cons, List.sum_cons]
              have := mtWeight_pos m
              omega
            rw [fuelMeasure] at h0
            omega
      exact ⟨stuck_waitList_nil s inv hmts, hmts⟩
  | succ k ih =>
      intro s inv hmeas
      cases hmt : s.mts with
      | nil =>
          rw [drain_of_mts_eq_nil _ s hmt]
          exact ⟨stuck_waitList_nil s inv hmt, hmt⟩
      | cons m r =>
          rw [drain_succ_cons k s m r hmt]
          apply ih
          · exact runInv_step s m r hmt inv
          · have := fuelMeasure_step s m r hmt inv.noPP
            omega

/-- Draining preserves the concatenation of started ids and waiting ids. -/
theorem drain_startedIds (n : Nat) : ∀ s : QueueState, s.pausePending = none →
    startedIds (drain n s).events ++ waitIds (drain n s)
      = startedIds s.events ++ waitIds s := by
  induction n with
  | zero => intro s _; rfl
  | succ k ih =>
      intro s hp
      cases hmt : s.mts with
      | nil => rw [drain_of_mts_eq_nil _ s hmt]
      | cons m r =>
          rw [drain_succ_cons k s m r hmt]
          rw [ih _ (runMicrotask_pausePending { s with mts := r } m hp)]
          exact runMicrotask_startedIds { s with mts := r } m hp

/-- The state right after `exec()` on a queue with no pending microtasks,
all-resolving waiting tasks and no pause in progress satisfies the run
invariant. -/
theorem runInv_next_of (u : QueueState)
    (hwr : ∀ t ∈ u.waitList, t.outcome = Outcome.resolve)
    (hst : ¬ u.status = QueueStatus.qBeforePause)
    (hpp : u.pausePending = none)
    (hmts : u.mts = []) :
    RunInv (next u) := by
  rcases next_cases u hst with ⟨hw, hrw⟩ | ⟨t, rest, hw, hrw⟩
  · rw [hrw]
    refine ⟨hwr, by simp, hpp, ?_, ?_, ?_⟩
    · intro hmem
      rw [hmts] at hmem
      simp at hmem
    · intro id' o' hmem
      rw [hmts] at hmem
      simp at hmem
    · intro hne
      exact absurd hw hne
  · rw [hrw]
    have htres : t.outcome = Outcome.resolve :=
      hwr t (by rw [hw]; exact List.mem_cons_self _ _)
    have hrest : ∀ t' ∈ rest, t'.outcome = Outcome.resolve := fun t' ht' =>
      hwr t' (by rw [hw]; exact List.mem_cons_of_mem _ ht')
    refine ⟨waitResolve_setStatusById _ _ _ hrest, hst, hpp, ?_, ?_, ?_⟩
    · intro hmem
      rcases List.mem_append.mp hmem with h | h
      · rw [hmts] at h; simp at h
      · simp at h
    · intro id' o' hmem
      rcases List.mem_append.mp hmem with h | h
      · rw [hmts] at h; simp at h
      · simp only [List.mem_singleton, Microtask.thenCb.injEq] at h
        rw [h.2]
        exact htres
    · intro _
      refine ⟨?_, ?_⟩
      · intro _
        refine ⟨t.id, ?_⟩
        rw [← htres]
        exact List.mem_append.mpr (Or.inr (List.mem_singleton.mpr rfl))
      · intro _
        simp

/-- C1: submitting any sequence of distinct-id, instantaneously-resolving
tasks with `push` and then calling `exec()` publishes the task-start
notifications in exactly the submission order — `push` appends to the tail
of the waiting list and `next()` always starts its head — and the run
completes (empty waiting list, no microtask left), whatever the other
configuration flags are. -/
theorem c1_fifo_start_order (ts : List (String × Outcome)) (opts : AsyncQueueOptions)
    (him : opts.immediate = false)
    (hres : ∀ p ∈ ts, p.2 = Outcome.resolve)
    (hnd : (ts.map Prod.fst).Nodup) :
    startedIds (runAll opts ts).events = ts.map Prod.fst
    ∧ (runAll opts ts).waitList = []
    ∧ (runAll opts ts).mts = [] := by
  have hpush := pushAll_initQueue ts opts him hnd
  have hexec : exec (pushAll (initQueue opts) ts)
      = next (emit { pushAll (initQueue opts) ts with status := QueueStatus.qRunning }
          Event.queueStart) := by
    rw [hpush]
    rfl
  have hinv : RunInv (exec (pushAll (initQueue opts) ts)) := by
    rw [hexec]
    apply runInv_next_of
    · intro t ht
      rw [emit_waitList] at ht
      have ht' : t ∈ List.map taskOf ts := by
        rw [hpush] at ht
        exact ht
      obtain ⟨p, hp, hpt⟩ := List.mem_map.mp ht'
      rw [← hpt]
      simpa [taskOf] using hres p hp
    · rw [emit_status]
      simp
    · rw [emit_pausePending, hpush]
      rfl
    · rw [emit_mts, hpush]
      rfl
  have hprefix : startedIds (exec (pushAll (initQueue opts) ts)).events
      ++ waitIds (exec (pushAll (initQueue opts) ts)) = ts.map Prod.fst := by
    rw [hexec, next_startedIds, hpush]
    simp [startedIds, waitIds, taskOf, List.map_map, initQueue, emit, Function.comp]
  have hcomplete := drain_runInv_complete
    (fuelMeasure (exec (pushAll (initQueue opts) ts)))
    (exec (pushAll (initQueue opts) ts)) hinv rfl
  have hids := drain_startedIds
    (fuelMeasure (exec (pushAll (initQueue opts) ts)))
    (exec (pushAll (initQueue opts) ts)) hinv.noPP
  have hrunAll : runAll opts ts
      = drain (fuelMeasure (exec (pushAll (initQueue opts) ts)))
          (exec (pushAll (initQueue opts) ts)) := rfl
  rw [hrunAll]
  refine ⟨?_, hcomplete.1, hcomplete.2⟩
  have hwnil : waitIds (drain (fuelMeasure (exec (pushAll (initQueue opts) ts)))
      (exec (pushAll (initQueue opts) ts))) = [] := by
    rw [waitIds, hcomplete.1]
    rfl
  rw [hwnil, List.append_nil] at hids
  rw [hids, hprefix]

end AsyncQueue

namespace AsyncQueue

/-! ## The C2 chain-shape invariant -/

/-- The id of a pending `.finally` reaction. -/
def finStageId : Microtask → Option String
  | Microtask.finallyCb id => some id
  | _ => none

/-- The id and outcome of a pending `.catch` reaction. -/
def catchStage : Microtask → Option (String × Outcome)
  | Microtask.catchCb id o => some (id, o)
  | _ => none

/-- The id and outcome of a pending `.then` reaction. -/
def thenStage : Microtask → Option (String × Outcome)
  | Microtask.thenCb id o => some (id, o)
  | _ => none

/-- Id and outcome of a task (its status-independent identity). -/
def taskKey (t : AsyncTaskItem) : String × Outcome :=
  (t.id, t.outcome)

/-- Decomposition of the in-flight list into the chains whose next pending
reaction is the `.finally` (block `A`, already settled), the `.catch`
(block `B`, settled on the resolve path, still `STATUS_PEDDING` on the
reject path) and the `.then` (block `C`, still `STATUS_PEDDING`), in this
order; the microtask queue holds exactly one stage per chain, blockwise in
list order. -/
structure Decomp (s : QueueState) (A B C : List AsyncTaskItem) : Prop where
  ex : s.excuteList = A ++ B ++ C
  fins : s.mts.filterMap finStageId = A.map fun t => t.id
  catches : s.mts.filterMap catchStage = B.map taskKey
  thens : s.mts.filterMap thenStage = C.map taskKey
  aSettled : ∀ t ∈ A, ¬ t.status = TaskStatus.pedding
  bStatus : ∀ t ∈ B, (t.status = TaskStatus.pedding ↔ t.outcome = Outcome.rejection)
  cPending : ∀ t ∈ C, t.status = TaskStatus.pedding
  pendBound : C.length + (B.filter fun t => t.outcome = Outcome.rejection).length ≤ 1

/-- Invariant of a run started by submissions and a single `exec()`: the
in-flight list decomposes into chain blocks with at most one
still-`PEDDING` chain, every waiting task is `STATUS_WAITING`, no finished
task is `STATUS_PEDDING`, tracked ids are unique, no pause is in progress,
and under `continueWhenError` the machine is strictly single-chain. -/
structure ShapeInv (s : QueueState) : Prop where
  decomp : ∃ A B C, Decomp s A B C
  waitWaiting : ∀ t ∈ s.waitList, t.status = TaskStatus.waiting
  finSettled : ∀ t ∈ s.finishList, ¬ t.status = TaskStatus.pedding
  nodup : (allIds s).Nodup
  notBP : ¬ s.status = QueueStatus.qBeforePause
  noPP : s.pausePending = none
  noPS : Microtask.pauseSettled ∉ s.mts
  cweSingle : s.options.continueWhenError = true → s.mts.length ≤ 1

theorem map_eq_cons_inv {α β : Type} (f : α → β) (l : List α) (x : β) (xs : List β)
    (h : l.map f = x :: xs) : ∃ h' t', l = h' :: t' ∧ f h' = x ∧ t'.map f = xs := by
  cases l with
  | nil => simp at h
  | cons a t =>
      simp only [List.map_cons, List.cons.injEq] at h
      exact ⟨a, t, rfl, h.1, h.2⟩

theorem setStatusById_decomp (id : String) (st : TaskStatus)
    (X Y : List AsyncTaskItem) (c0 : AsyncTaskItem)
    (hc : c0.id = id) (hX : id ∉ X.map fun t => t.id) :
    setStatusById id st (X ++ c0 :: Y) =
      X ++ { c0 with status := st } :: setStatusById id st Y := by
  rw [setStatusById_append, setStatusById_of_not_mem _ _ _ hX]
  simp [setStatusById, hc]

end AsyncQueue

namespace AsyncQueue

theorem pendingCount_le_one (s : QueueState) (inv : ShapeInv s) :
    pendingCount s ≤ 1 := by
  obtain ⟨A, B, C, d⟩ := inv.decomp
  have hw : (s.waitList.filter fun t => t.status = TaskStatus.pedding) = [] := by
    rw [List.filter_eq_nil]
    intro t ht
    simp [inv.waitWaiting t ht]
  have hf : (s.finishList.filter fun t => t.status = TaskStatus.pedding) = [] := by
    rw [List.filter_eq_nil]
    intro t ht
    simpa using inv.finSettled t ht
  have hA : (A.filter fun t => t.status = TaskStatus.pedding) = [] := by
    rw [List.filter_eq_nil]
    intro t ht
    simpa using d.aSettled t ht
  have hC : (C.filter fun t => t.status = TaskStatus.pedding) = C := by
    rw [List.filter_eq_self]
    intro t ht
    simpa using d.cPending t ht
  have hB : (B.filter fun t => t.status = TaskStatus.pedding)
      = (B.filter fun t => t.outcome = Outcome.rejection) := by
    apply List.filter_congr
    intro t ht
    simp only [decide_eq_decide]
    exact d.bStatus t ht
  have hcalc : pendingCount s
      = C.length + (B.filter fun t => t.outcome = Outcome.rejection).length := by
    rw [pendingCount, allTasks, d.ex]
    simp only [List.filter_append, List.length_append, hw, hf, hA, hC, hB]
    simp
    omega
  rw [hcalc]
  exact d.pendBound

theorem nodup_start_move {α : Type} (w e f : List α) (a : α)
    (h : (a :: (w ++ e ++ f)).Nodup) : (w ++ (e ++ [a]) ++ f).Nodup := by
  have heq : w ++ (e ++ [a]) ++ f = (w ++ e) ++ a :: f := by simp
  rw [heq]
  rw [List.Perm.nodup_iff List.perm_middle]
  have heq2 : a :: ((w ++ e) ++ f) = a :: (w ++ e ++ f) := by simp
  rw [heq2]
  exact h

theorem nodup_mid_elim {α : Type} (w e f : List α) (a : α)
    (h : (w ++ (a :: e) ++ f).Nodup) : (a :: (w ++ e ++ f)).Nodup := by
  have heq : w ++ (a :: e) ++ f = w ++ a :: (e ++ f) := by simp
  rw [heq] at h
  have hp : List.Perm (w ++ a :: (e ++ f)) (a :: (w ++ (e ++ f))) := List.perm_middle
  have h' := (List.Perm.nodup_iff hp).mp h
  simpa using h'

theorem nodup_finish_move {α : Type} (w e f : List α) (a : α)
    (h : (a :: (w ++ e ++ f)).Nodup) : (w ++ e ++ (f ++ [a])).Nodup := by
  have heq : w ++ e ++ (f ++ [a]) = (w ++ e ++ f) ++ [a] := by simp
  rw [heq]
  rw [List.Perm.nodup_iff (List.perm_append_singleton a (w ++ e ++ f))]
  exact h

theorem nodup_drop {α : Type} (w e f : List α) (a : α)
    (h : (a :: (w ++ e ++ f)).Nodup) : (w ++ e ++ f).Nodup :=
  (List.nodup_cons.mp h).2

theorem nodup_mid_not_mem {α : Type} (w e f : List α) (a : α)
    (h : (a :: (w ++ e ++ f)).Nodup) :
    a ∉ w ∧ a ∉ e ∧ a ∉ f := by
  have h1 := (List.nodup_cons.mp h).1
  simp only [List.mem_append, not_or] at h1
  exact ⟨h1.1.1, h1.1.2, h1.2⟩

end AsyncQueue

namespace AsyncQueue

theorem perm_extract_mid {α : Type} (w x y z f : List α) (a : α) :
    List.Perm (w ++ (x ++ y ++ a :: z) ++ f) (a :: (w ++ (x ++ y ++ z) ++ f)) := by
  have h1 : w ++ (x ++ y ++ a :: z) ++ f = (w ++ x ++ y) ++ a :: (z ++ f) := by simp
  have h2 : a :: (w ++ (x ++ y ++ z) ++ f) = a :: ((w ++ x ++ y) ++ (z ++ f)) := by simp
  rw [h1, h2]
  exact List.perm_middle

theorem perm_extract_mid2 {α : Type} (w x z f : List α) (a : α) :
    List.Perm (w ++ (x ++ a :: z) ++ f) (a :: (w ++ (x ++ z) ++ f)) := by
  have h1 : w ++ (x ++ a :: z) ++ f = (w ++ x) ++ a :: (z ++ f) := by simp
  have h2 : a :: (w ++ (x ++ z) ++ f) = a :: ((w ++ x) ++ (z ++ f)) := by simp
  rw [h1, h2]
  exact List.perm_middle

theorem perm_extract_head {α : Type} (w z f : List α) (a : α) :
    List.Perm (w ++ (a :: z) ++ f) (a :: (w ++ z ++ f)) := by
  have h1 : w ++ (a :: z) ++ f = w ++ a :: (z ++ f) := by simp
  have h2 : a :: (w ++ z ++ f) = a :: (w ++ (z ++ f)) := by simp
  rw [h1, h2]
  exact List.perm_middle

end AsyncQueue

namespace AsyncQueue

theorem shapeInv_step_then (s : QueueState) (id : String) (o : Outcome)
    (rest : List Microtask) (hm : s.mts = Microtask.thenCb id o :: rest)
    (inv : ShapeInv s) :
    ShapeInv (runMicrotask { s with mts := rest } (Microtask.thenCb id o)) := by
  obtain ⟨A, B, C, d⟩ := inv.decomp
  have hthens : (id, o) :: rest.filterMap thenStage = C.map taskKey := by
    have h := d.thens
    rw [hm] at h
    simpa [thenStage] using h
  obtain ⟨c0, C', hC, hkey, hthens'⟩ :=
    map_eq_cons_inv taskKey C (id, o) (rest.filterMap thenStage) hthens.symm
  have hc0id : c0.id = id := by
    have h := congrArg Prod.fst hkey
    simpa [taskKey] using h
  have hc0o : c0.outcome = o := by
    have h := congrArg Prod.snd hkey
    simpa [taskKey] using h
  have hfins : rest.filterMap finStageId = A.map fun t => t.id := by
    have h := d.fins
    rw [hm] at h
    simpa [finStageId] using h
  have hcatches : rest.filterMap catchStage = B.map taskKey := by
    have h := d.catches
    rw [hm] at h
    simpa [catchStage] using h
  have hthens'' : rest.filterMap thenStage = C'.map taskKey := hthens'.symm
  have hex : s.excuteList = A ++ B ++ c0 :: C' := by rw [d.ex, hC]
  have hc0pend : c0.status = TaskStatus.pedding :=
    d.cPending c0 (by rw [hC]; exact List.mem_cons_self _ _)
  have hC'pend : ∀ t ∈ C', t.status = TaskStatus.pedding := fun t ht =>
    d.cPending t (by rw [hC]; exact List.mem_cons_of_mem _ ht)
  have hBstat : ∀ t ∈ B, (t.status = TaskStatus.pedding ↔ t.outcome = Outcome.rejection) :=
    d.bStatus
  have noPS' : Microtask.pauseSettled ∉ rest := fun h =>
    inv.noPS (by rw [hm]; exact List.mem_cons_of_mem _ h)
  have hpend : C'.length + 1
      + (B.filter fun t => t.outcome = Outcome.rejection).length ≤ 1 := by
    have h := d.pendBound
    rw [hC] at h
    simpa using h
  -- id-uniqueness facts
  have hndexp : allIds s = (s.waitList.map fun t => t.id)
      ++ ((A.map fun t => t.id) ++ (B.map fun t => t.id) ++ c0.id :: (C'.map fun t => t.id))
      ++ (s.finishList.map fun t => t.id) := by
    simp [allIds, allTasks, hex, List.map_append]
  have hnd0 : ((s.waitList.map fun t => t.id)
      ++ ((A.map fun t => t.id) ++ (B.map fun t => t.id) ++ c0.id :: (C'.map fun t => t.id))
      ++ (s.finishList.map fun t => t.id)).Nodup := by
    rw [← hndexp]
    exact inv.nodup
  have hndc : (c0.id :: ((s.waitList.map fun t => t.id)
      ++ ((A.map fun t => t.id) ++ (B.map fun t => t.id) ++ (C'.map fun t => t.id))
      ++ (s.finishList.map fun t => t.id))).Nodup :=
    (List.Perm.nodup_iff (perm_extract_mid _ _ _ _ _ _)).mp hnd0
  obtain ⟨hnw, hnmid, hnf⟩ := nodup_mid_not_mem _ _ _ _ hndc
  have hnAB : id ∉ (A ++ B).map fun t => t.id := by
    rw [← hc0id]
    intro h
    rw [List.map_append] at h
    rcases List.mem_append.mp h with h' | h'
    · exact hnmid (List.mem_append.mpr (Or.inl (List.mem_append.mpr (Or.inl h'))))
    · exact hnmid (List.mem_append.mpr (Or.inl (List.mem_append.mpr (Or.inr h'))))
  have hnC' : id ∉ C'.map fun t => t.id := by
    rw [← hc0id]
    intro h
    exact hnmid (List.mem_append.mpr (Or.inr h))
  have hsetEx : ∀ st : TaskStatus, setStatusById id st s.excuteList
      = A ++ B ++ ({ c0 with status := st } :: C') := by
    intro st
    rw [hex]
    rw [setStatusById_decomp id st (A ++ B) C' c0 hc0id hnAB]
    rw [setStatusById_of_not_mem _ _ _ hnC']
  have hsetW : ∀ st : TaskStatus, setStatusById id st s.waitList = s.waitList := by
    intro st
    apply setStatusById_of_not_mem
    rw [← hc0id]
    exact hnw
  have hsetF : ∀ st : TaskStatus, setStatusById id st s.finishList = s.finishList := by
    intro st
    apply setStatusById_of_not_mem
    rw [← hc0id]
    exact hnf
  rw [runMicrotask_thenCb]
  cases o with
  | rejection =>
      rw [runThenCb_rejection]
      refine ⟨⟨A, B ++ [c0], C', ?_, ?_, ?_, ?_, ?_, ?_, ?_, ?_⟩,
        inv.waitWaiting, inv.finSettled, ?_, inv.notBP, inv.noPP, ?_, ?_⟩
      · show s.excuteList = _
        rw [hex]
        simp
      · show (rest ++ [Microtask.catchCb id Outcome.rejection]).filterMap finStageId = _
        simp [List.filterMap_append, hfins, finStageId]
      · show (rest ++ [Microtask.catchCb id Outcome.rejection]).filterMap catchStage = _
        simp [List.filterMap_append, hcatches, catchStage, taskKey, hc0id, hc0o]
      · show (rest ++ [Microtask.catchCb id Outcome.rejection]).filterMap thenStage = _
        simp [List.filterMap_append, hthens'', thenStage]
      · exact d.aSettled
      · intro t ht
        rcases List.mem_append.mp ht with h | h
        · exact hBstat t h
        · have : t = c0 := by simpa using h
          subst this
          simp [hc0pend, hc0o]
      · exact hC'pend
      · have : ((B ++ [c0]).filter fun t => t.outcome = Outcome.rejection).length
            = (B.filter fun t => t.outcome = Outcome.rejection).length + 1 := by
          simp [List.filter_append, hc0o]
        rw [this]
        omega
      · show (allIds s).Nodup
        exact inv.nodup
      · intro hmem
        rcases List.mem_append.mp hmem with h | h
        · exact noPS' h
        · simp at h
      · intro hct
        have hct' : s.options.continueWhenError = true := hct
        have h := inv.cweSingle hct'
        rw [hm] at h
        show (rest ++ [Microtask.catchCb id Outcome.rejection]).length ≤ 1
        simp only [List.length_cons, List.length_append, List.length_nil] at h ⊢
        omega
  | resolve =>
      cases hcb : s.options.continueWhenError with
      | true =>
          rw [runThenCb_resolve_stop { s with mts := rest } id hcb]
          refine ⟨⟨A, B ++ [{ c0 with status := TaskStatus.success }], C', ?_, ?_, ?_, ?_,
              ?_, ?_, ?_, ?_⟩, ?_, ?_, ?_, inv.notBP, inv.noPP, ?_, ?_⟩
          · show setStatusById id TaskStatus.success s.excuteList = _
            rw [hsetEx]
            simp
          · show (rest ++ [Microtask.catchCb id Outcome.resolve]).filterMap finStageId = _
            simp [List.filterMap_append, hfins, finStageId]
          · show (rest ++ [Microtask.catchCb id Outcome.resolve]).filterMap catchStage = _
            simp [List.filterMap_append, hcatches, catchStage, taskKey, hc0id, hc0o]
          · show (rest ++ [Microtask.catchCb id Outcome.resolve]).filterMap thenStage = _
            simp [List.filterMap_append, hthens'', thenStage]
          · exact d.aSettled
          · intro t ht
            rcases List.mem_append.mp ht with h | h
            · exact hBstat t h
            · have : t = { c0 with status := TaskStatus.success } := by simpa using h
              subst this
              simp [hc0o]
          · exact hC'pend
          · have : ((B ++ [({ c0 with status := TaskStatus.success } : AsyncTaskItem)]).filter
                fun t => t.outcome = Outcome.rejection).length
                = (B.filter fun t => t.outcome = Outcome.rejection).length := by
              simp [List.filter_append, hc0o]
            rw [this]
            omega
          · intro t ht
            rw [show setStatusById id TaskStatus.success s.waitList = s.waitList from hsetW _] at ht
            exact inv.waitWaiting t ht
          · intro t ht
            rw [show setStatusById id TaskStatus.success s.finishList = s.finishList from hsetF _] at ht
            exact inv.finSettled t ht
          · show ((setStatusById id TaskStatus.success s.waitList
                ++ setStatusById id TaskStatus.success s.excuteList
                ++ setStatusById id TaskStatus.success s.finishList).map fun t => t.id).Nodup
            rw [hsetW, hsetF, hsetEx]
            have hids : ((s.waitList ++ (A ++ B ++ { c0 with status := TaskStatus.success } :: C')
                ++ s.finishList).map fun t => t.id)
                = (allIds s) := by
              simp [allIds, allTasks, hex]
            rw [hids]
            exact inv.nodup
          · intro hmem
            rcases List.mem_append.mp hmem with h | h
            · exact noPS' h
            · simp at h
          · intro hct
            have hct' : s.options.continueWhenError = true := hct
            have h := inv.cweSingle hct'
            rw [hm] at h
            show (rest ++ [Microtask.catchCb id Outcome.resolve]).length ≤ 1
            simp only [List.length_cons, List.length_append, List.length_nil] at h ⊢
            omega
      | false =>
          rw [runThenCb_resolve_chain { s with mts := rest } id hcb]
          have hbp2 : ¬ (emit (writeStatus { s with mts := rest } id TaskStatus.success)
              (Event.taskSuccess id)).status = QueueStatus.qBeforePause := inv.notBP
          rcases next_cases _ hbp2 with ⟨hw2, hrw2⟩ | ⟨t, rest2, hw2, hrw2⟩
          · rw [hrw2]
            refine ⟨⟨A, B ++ [{ c0 with status := TaskStatus.success }], C', ?_, ?_, ?_, ?_,
                ?_, ?_, ?_, ?_⟩, ?_, ?_, ?_, by simp, inv.noPP, ?_, ?_⟩
            · show setStatusById id TaskStatus.success s.excuteList = _
              rw [hsetEx]
              simp
            · show (rest ++ [Microtask.catchCb id Outcome.resolve]).filterMap finStageId = _
              simp [List.filterMap_append, hfins, finStageId]
            · show (rest ++ [Microtask.catchCb id Outcome.resolve]).filterMap catchStage = _
              simp [List.filterMap_append, hcatches, catchStage, taskKey, hc0id, hc0o]
            · show (rest ++ [Microtask.catchCb id Outcome.resolve]).filterMap thenStage = _
              simp [List.filterMap_append, hthens'', thenStage]
            · exact d.aSettled
            · intro t ht
              rcases List.mem_append.mp ht with h | h
              · exact hBstat t h
              · have : t = { c0 with status := TaskStatus.success } := by simpa using h
                subst this
                simp [hc0o]
            · exact hC'pend
            · have : ((B ++ [({ c0 with status := TaskStatus.success } : AsyncTaskItem)]).filter
                  fun t => t.outcome = Outcome.rejection).length
                  = (B.filter fun t => t.outcome = Outcome.rejection).length := by
                simp [List.filter_append, hc0o]
              rw [this]
              omega
            · intro t ht
              have ht2 : t ∈ setStatusById id TaskStatus.success s.waitList := ht
              rw [hsetW] at ht2
              exact inv.waitWaiting t ht2
            · intro t ht
              have ht2 : t ∈ setStatusById id TaskStatus.success s.finishList := ht
              rw [hsetF] at ht2
              exact inv.finSettled t ht2
            · show ((setStatusById id TaskStatus.success s.waitList
                  ++ setStatusById id TaskStatus.success s.excuteList
                  ++ setStatusById id TaskStatus.success s.finishList).map fun t => t.id).Nodup
              rw [hsetW, hsetF, hsetEx]
              have hids : ((s.waitList ++ (A ++ B ++ { c0 with status := TaskStatus.success } :: C')
                  ++ s.finishList).map fun t => t.id)
                  = (allIds s) := by
                simp [allIds, allTasks, hex]
              rw [hids]
              exact inv.nodup
            · intro hmem
              rcases List.mem_append.mp hmem with h | h
              · exact noPS' h
              · simp at h
            · intro hct
              have hct' : s.options.continueWhenError = true := hct
              rw [hcb] at hct'
              simp at hct'
          · rw [hrw2]
            have hw' : s.waitList = t :: rest2 := by
              have h := hw2
              rw [show (emit (writeStatus { s with mts := rest } id TaskStatus.success)
                  (Event.taskSuccess id)).waitList
                  = setStatusById id TaskStatus.success s.waitList from rfl] at h
              rw [hsetW] at h
              exact h
            have hndt : (t.id :: ((rest2.map fun x => x.id)
                ++ (s.excuteList.map fun x => x.id)
                ++ (s.finishList.map fun x => x.id))).Nodup := by
              have h := inv.nodup
              rw [show allIds s = t.id :: ((rest2.map fun x => x.id)
                  ++ (s.excuteList.map fun x => x.id)
                  ++ (s.finishList.map fun x => x.id)) from by
                simp [allIds, allTasks, hw', List.map_append]] at h
              exact h
            obtain ⟨htnw, htex, htf⟩ := nodup_mid_not_mem _ _ _ _ hndt
            have hsetW2 : setStatusById t.id TaskStatus.pedding rest2 = rest2 :=
              setStatusById_of_not_mem _ _ _ htnw
            have hEx2ids : ((setStatusById id TaskStatus.success s.excuteList).map fun x => x.id)
                = s.excuteList.map fun x => x.id := ids_setStatusById _ _ _
            have hsetEx2 : setStatusById t.id TaskStatus.pedding
                (setStatusById id TaskStatus.success s.excuteList ++ [t])
                = setStatusById id TaskStatus.success s.excuteList
                  ++ [{ t with status := TaskStatus.pedding }] := by
              rw [setStatusById_append]
              rw [setStatusById_of_not_mem _ _ _ (by rw [hEx2ids]; exact htex)]
              simp [setStatusById]
            have hsetF2 : setStatusById t.id TaskStatus.pedding
                (setStatusById id TaskStatus.success s.finishList)
                = s.finishList := by
              rw [hsetF]
              exact setStatusById_of_not_mem _ _ _ htf
            refine ⟨⟨A, B ++ [{ c0 with status := TaskStatus.success }],
                C' ++ [{ t with status := TaskStatus.pedding }], ?_, ?_, ?_, ?_,
                ?_, ?_, ?_, ?_⟩, ?_, ?_, ?_, inv.notBP, inv.noPP, ?_, ?_⟩
            · show setStatusById t.id TaskStatus.pedding
                  (setStatusById id TaskStatus.success s.excuteList ++ [t]) = _
              rw [hsetEx2, hsetEx]
              simp
            · show ((rest ++ [Microtask.thenCb t.id t.outcome])
                  ++ [Microtask.catchCb id Outcome.resolve]).filterMap finStageId = _
              simp [List.filterMap_append, hfins, finStageId]
            · show ((rest ++ [Microtask.thenCb t.id t.outcome])
                  ++ [Microtask.catchCb id Outcome.resolve]).filterMap catchStage = _
              simp [List.filterMap_append, hcatches, catchStage, taskKey, hc0id, hc0o]
            · show ((rest ++ [Microtask.thenCb t.id t.outcome])
                  ++ [Microtask.catchCb id Outcome.resolve]).filterMap thenStage = _
              simp [List.filterMap_append, hthens'', thenStage, taskKey]
            · exact d.aSettled
            · intro u hu
              rcases List.mem_append.mp hu with h | h
              · exact hBstat u h
              · have : u = { c0 with status := TaskStatus.success } := by simpa using h
                subst this
                simp [hc0o]
            · intro u hu
              rcases List.mem_append.mp hu with h | h
              · exact hC'pend u h
              · have : u = { t with status := TaskStatus.pedding } := by simpa using h
                subst this
                rfl
            · have h1 : ((B ++ [({ c0 with status := TaskStatus.success } : AsyncTaskItem)]).filter
                  fun u => u.outcome = Outcome.rejection).length
                  = (B.filter fun u => u.outcome = Outcome.rejection).length := by
                simp [List.filter_append, hc0o]
              have h2 : (C' ++ [({ t with status := TaskStatus.pedding } : AsyncTaskItem)]).length
                  = C'.length + 1 := by simp
              rw [h1, h2]
              omega
            · intro u hu
              have hu2 : u ∈ setStatusById t.id TaskStatus.pedding rest2 := hu
              rw [hsetW2] at hu2
              exact inv.waitWaiting u (by rw [hw']; exact List.mem_cons_of_mem _ hu2)
            · intro u hu
              have hu2 : u ∈ setStatusById t.id TaskStatus.pedding
                  (setStatusById id TaskStatus.success s.finishList) := hu
              rw [hsetF2] at hu2
              exact inv.finSettled u hu2
            · show ((setStatusById t.id TaskStatus.pedding rest2
                  ++ setStatusById t.id TaskStatus.pedding
                    (setStatusById id TaskStatus.success s.excuteList ++ [t])
                  ++ setStatusById t.id TaskStatus.pedding
                    (setStatusById id TaskStatus.success s.finishList)).map fun x => x.id).Nodup
              rw [hsetW2, hsetEx2, hsetF2]
              have heq : ((rest2 ++ (setStatusById id TaskStatus.success s.excuteList
                  ++ [({ t with status := TaskStatus.pedding } : AsyncTaskItem)])
                  ++ s.finishList).map fun x => x.id)
                  = (rest2.map fun x => x.id)
                    ++ ((s.excuteList.map fun x => x.id) ++ [t.id])
                    ++ (s.finishList.map fun x => x.id) := by
                simp [hEx2ids]
              rw [heq]
              exact nodup_start_move _ _ _ _ hndt
            · intro hmem
              rcases List.mem_append.mp hmem with h | h
              · rcases List.mem_append.mp h with h' | h'
                · exact noPS' h'
                · simp at h'
              · simp at h
            · intro hct
              have hct' : s.options.continueWhenError = true := hct
              rw [hcb] at hct'
              simp at hct'

end AsyncQueue

namespace AsyncQueue

theorem shapeInv_step_catch (s : QueueState) (id : String) (o : Outcome)
    (rest : List Microtask) (hm : s.mts = Microtask.catchCb id o :: rest)
    (inv : ShapeInv s) :
    ShapeInv (runMicrotask { s with mts := rest } (Microtask.catchCb id o)) := by
  obtain ⟨A, B, C, d⟩ := inv.decomp
  have hcatches : (id, o) :: rest.filterMap catchStage = B.map taskKey := by
    have h := d.catches
    rw [hm] at h
    simpa [catchStage] using h
  obtain ⟨b0, B', hB, hkey, hcatches'⟩ :=
    map_eq_cons_inv taskKey B (id, o) (rest.filterMap catchStage) hcatches.symm
  have hb0id : b0.id = id := by
    have h := congrArg Prod.fst hkey
    simpa [taskKey] using h
  have hb0o : b0.outcome = o := by
    have h := congrArg Prod.snd hkey
    simpa [taskKey] using h
  have hfins : rest.filterMap finStageId = A.map fun t => t.id := by
    have h := d.fins
    rw [hm] at h
    simpa [finStageId] using h
  have hcatches'' : rest.filterMap catchStage = B'.map taskKey := hcatches'.symm
  have hthens : rest.filterMap thenStage = C.map taskKey := by
    have h := d.thens
    rw [hm] at h
    simpa [thenStage] using h
  have hex : s.excuteList = A ++ b0 :: (B' ++ C) := by
    rw [d.ex, hB]
    simp
  have hb0stat : b0.status = TaskStatus.pedding ↔ b0.outcome = Outcome.rejection :=
    d.bStatus b0 (by rw [hB]; exact List.mem_cons_self _ _)
  have hB'stat : ∀ t ∈ B', t.status = TaskStatus.pedding ↔ t.outcome = Outcome.rejection :=
    fun t ht => d.bStatus t (by rw [hB]; exact List.mem_cons_of_mem _ ht)
  have noPS' : Microtask.pauseSettled ∉ rest := fun h =>
    inv.noPS (by rw [hm]; exact List.mem_cons_of_mem _ h)
  have hpend : C.length
      + ((b0 :: B').filter fun t => t.outcome = Outcome.rejection).length ≤ 1 := by
    have h := d.pendBound
    rw [hB] at h
    exact h
  have hndexp : allIds s = (s.waitList.map fun t => t.id)
      ++ ((A.map fun t => t.id) ++ b0.id :: ((B'.map fun t => t.id) ++ (C.map fun t => t.id)))
      ++ (s.finishList.map fun t => t.id) := by
    simp [allIds, allTasks, hex]
  have hnd0 : ((s.waitList.map fun t => t.id)
      ++ ((A.map fun t => t.id) ++ b0.id :: ((B'.map fun t => t.id) ++ (C.map fun t => t.id)))
      ++ (s.finishList.map fun t => t.id)).Nodup := by
    rw [← hndexp]
    exact inv.nodup
  have hndc : (b0.id :: ((s.waitList.map fun t => t.id)
      ++ ((A.map fun t => t.id) ++ ((B'.map fun t => t.id) ++ (C.map fun t => t.id)))
      ++ (s.finishList.map fun t => t.id))).Nodup :=
    (List.Perm.nodup_iff (perm_extract_mid2 _ _ _ _ _)).mp hnd0
  obtain ⟨hnw, hnmid, hnf⟩ := nodup_mid_not_mem _ _ _ _ hndc
  have hnA : id ∉ A.map fun t => t.id := by
    rw [← hb0id]
    intro h
    exact hnmid (List.mem_append.mpr (Or.inl h))
  have hnBC : id ∉ (B' ++ C).map fun t => t.id := by
    rw [← hb0id]
    intro h
    rw [List.map_append] at h
    exact hnmid (List.mem_append.mpr (Or.inr h))
  have hsetEx : ∀ st : TaskStatus, setStatusById id st s.excuteList
      = A ++ { b0 with status := st } :: (B' ++ C) := by
    intro st
    rw [hex]
    rw [setStatusById_decomp id st A (B' ++ C) b0 hb0id hnA]
    rw [setStatusById_of_not_mem _ _ _ hnBC]
  have hsetW : ∀ st : TaskStatus, setStatusById id st s.waitList = s.waitList := by
    intro st
    apply setStatusById_of_not_mem
    rw [← hb0id]
    exact hnw
  have hsetF : ∀ st : TaskStatus, setStatusById id st s.finishList = s.finishList := by
    intro st
    apply setStatusById_of_not_mem
    rw [← hb0id]
    exact hnf
  rw [runMicrotask_catchCb]
  cases o with
  | resolve =>
      rw [runCatchCb_resolve]
      refine ⟨⟨A ++ [b0], B', C, ?_, ?_, ?_, ?_, ?_, ?_, ?_, ?_⟩,
        inv.waitWaiting, inv.finSettled, ?_, inv.notBP, inv.noPP, ?_, ?_⟩
      · show s.excuteList = _
        rw [hex]
        simp
      · show (rest ++ [Microtask.finallyCb id]).filterMap finStageId = _
        simp [List.filterMap_append, hfins, finStageId, hb0id]
      · show (rest ++ [Microtask.finallyCb id]).filterMap catchStage = _
        simp [List.filterMap_append, hcatches'', catchStage]
      · show (rest ++ [Microtask.finallyCb id]).filterMap thenStage = _
        simp [List.filterMap_append, hthens, thenStage]
      · intro t ht
        rcases List.mem_append.mp ht with h | h
        · exact d.aSettled t h
        · have : t = b0 := by simpa using h
          subst this
          intro hp
          have := hb0stat.mp hp
          rw [hb0o] at this
          simp at this
      · exact hB'stat
      · exact d.cPending
      · have h := hpend
        rw [List.filter_cons] at h
        simp only [hb0o] at h
        simp at h
        exact h
      · show (allIds s).Nodup
        exact inv.nodup
      · intro hmem
        rcases List.mem_append.mp hmem with h | h
        · exact noPS' h
        · simp at h
      · intro hct
        have hct' : s.options.continueWhenError = true := hct
        have h := inv.cweSingle hct'
        rw [hm] at h
        show (rest ++ [Microtask.finallyCb id]).length ≤ 1
        simp only [List.length_cons, List.length_append, List.length_nil] at h ⊢
        omega
  | rejection =>
      rw [runCatchCb_rejection]
      refine ⟨⟨A ++ [({ b0 with status := TaskStatus.failure } : AsyncTaskItem)], B', C,
          ?_, ?_, ?_, ?_, ?_, ?_, ?_, ?_⟩, ?_, ?_, ?_, inv.notBP, inv.noPP, ?_, ?_⟩
      · show setStatusById id TaskStatus.failure s.excuteList = _
        rw [hsetEx]
        simp
      · show (rest ++ [Microtask.finallyCb id]).filterMap finStageId = _
        simp [List.filterMap_append, hfins, finStageId, hb0id]
      · show (rest ++ [Microtask.finallyCb id]).filterMap catchStage = _
        simp [List.filterMap_append, hcatches'', catchStage]
      · show (rest ++ [Microtask.finallyCb id]).filterMap thenStage = _
        simp [List.filterMap_append, hthens, thenStage]
      · intro t ht
        rcases List.mem_append.mp ht with h | h
        · exact d.aSettled t h
        · have : t = { b0 with status := TaskStatus.failure } := by simpa using h
          subst this
          simp
      · exact hB'stat
      · exact d.cPending
      · have h := hpend
        rw [List.filter_cons] at h
        simp only [hb0o] at h
        simp at h
        omega
      · intro t ht
        have ht2 : t ∈ setStatusById id TaskStatus.failure s.waitList := ht
        rw [hsetW] at ht2
        exact inv.waitWaiting t ht2
      · intro t ht
        have ht2 : t ∈ setStatusById id TaskStatus.failure s.finishList := ht
        rw [hsetF] at ht2
        exact inv.finSettled t ht2
      · show ((setStatusById id TaskStatus.failure s.waitList
            ++ setStatusById id TaskStatus.failure s.excuteList
            ++ setStatusById id TaskStatus.failure s.finishList).map fun t => t.id).Nodup
        rw [hsetW, hsetF, hsetEx]
        have hids : ((s.waitList ++ (A ++ { b0 with status := TaskStatus.failure } :: (B' ++ C))
            ++ s.finishList).map fun t => t.id)
            = (allIds s) := by
          simp [allIds, allTasks, hex]
        rw [hids]
        exact inv.nodup
      · intro hmem
        rcases List.mem_append.mp hmem with h | h
        · exact noPS' h
        · simp at h
      · intro hct
        have hct' : s.options.continueWhenError = true := hct
        have h := inv.cweSingle hct'
        rw [hm] at h
        show (rest ++ [Microtask.finallyCb id]).length ≤ 1
        simp only [List.length_cons, List.length_append, List.length_nil] at h ⊢
        omega

end AsyncQueue

namespace AsyncQueue

theorem pushFinished_found (s : QueueState) (id : String) (a0 : AsyncTaskItem)
    (hraf : s.options.removeAfterFinish = false)
    (hfind : s.excuteList.find? (fun t => t.id = id) = some a0) :
    pushFinished s id = { s with finishList := s.finishList ++ [a0] } := by
  unfold pushFinished
  rw [if_pos hraf, hfind]

theorem pushFinished_raf_true (s : QueueState) (id : String)
    (hraf : s.options.removeAfterFinish = true) :
    pushFinished s id = s := by
  unfold pushFinished
  rw [if_neg (by simp [hraf])]

end AsyncQueue

namespace AsyncQueue

theorem shapeInv_step_finally (s : QueueState) (id : String)
    (rest : List Microtask) (hm : s.mts = Microtask.finallyCb id :: rest)
    (inv : ShapeInv s) :
    ShapeInv (runMicrotask { s with mts := rest } (Microtask.finallyCb id)) := by
  obtain ⟨A, B, C, d⟩ := inv.decomp
  have hfins : id :: rest.filterMap finStageId = A.map fun t => t.id := by
    have h := d.fins
    rw [hm] at h
    simpa [finStageId] using h
  obtain ⟨a0, A', hA, ha0id, hfins'⟩ :=
    map_eq_cons_inv (fun t => t.id) A id (rest.filterMap finStageId) hfins.symm
  have hfins'' : rest.filterMap finStageId = A'.map fun t => t.id := hfins'.symm
  have hcatches : rest.filterMap catchStage = B.map taskKey := by
    have h := d.catches
    rw [hm] at h
    simpa [catchStage] using h
  have hthens : rest.filterMap thenStage = C.map taskKey := by
    have h := d.thens
    rw [hm] at h
    simpa [thenStage] using h
  have hex : s.excuteList = a0 :: (A' ++ B ++ C) := by
    rw [d.ex, hA]
    simp
  have ha0set : ¬ a0.status = TaskStatus.pedding :=
    d.aSettled a0 (by rw [hA]; exact List.mem_cons_self _ _)
  have hA'set : ∀ t ∈ A', ¬ t.status = TaskStatus.pedding := fun t ht =>
    d.aSettled t (by rw [hA]; exact List.mem_cons_of_mem _ ht)
  have noPS' : Microtask.pauseSettled ∉ rest := fun h =>
    inv.noPS (by rw [hm]; exact List.mem_cons_of_mem _ h)
  have hndexp : allIds s = (s.waitList.map fun t => t.id)
      ++ (a0.id :: ((A'.map fun t => t.id) ++ (B.map fun t => t.id) ++ (C.map fun t => t.id)))
      ++ (s.finishList.map fun t => t.id) := by
    simp [allIds, allTasks, hex]
  have hnd0 : ((s.waitList.map fun t => t.id)
      ++ (a0.id :: ((A'.map fun t => t.id) ++ (B.map fun t => t.id) ++ (C.map fun t => t.id)))
      ++ (s.finishList.map fun t => t.id)).Nodup := by
    rw [← hndexp]
    exact inv.nodup
  have hndc : (a0.id :: ((s.waitList.map fun t => t.id)
      ++ ((A'.map fun t => t.id) ++ (B.map fun t => t.id) ++ (C.map fun t => t.id))
      ++ (s.finishList.map fun t => t.id))).Nodup :=
    (List.Perm.nodup_iff (perm_extract_head _ _ _ _)).mp hnd0
  have hfind : s.excuteList.find? (fun t => t.id = id) = some a0 := by
    rw [hex]
    simp [List.find?, ha0id]
  have hdrop : s.excuteList.drop 1 = A' ++ B ++ C := by
    rw [hex]
    rfl
  have hnodup1 : ((s.waitList ++ s.excuteList.drop 1
      ++ (s.finishList ++ [a0])).map fun t => t.id).Nodup := by
    rw [hdrop]
    have hids : ((s.waitList ++ (A' ++ B ++ C) ++ (s.finishList ++ [a0])).map fun t => t.id)
        = (s.waitList.map fun t => t.id)
          ++ ((A'.map fun t => t.id) ++ (B.map fun t => t.id) ++ (C.map fun t => t.id))
          ++ ((s.finishList.map fun t => t.id) ++ [a0.id]) := by
      simp
    rw [hids]
    exact nodup_finish_move _ _ _ _ hndc
  have hnodup2 : ((s.waitList ++ s.excuteList.drop 1
      ++ s.finishList).map fun t => t.id).Nodup := by
    rw [hdrop]
    have hids : ((s.waitList ++ (A' ++ B ++ C) ++ s.finishList).map fun t => t.id)
        = (s.waitList.map fun t => t.id)
          ++ ((A'.map fun t => t.id) ++ (B.map fun t => t.id) ++ (C.map fun t => t.id))
          ++ (s.finishList.map fun t => t.id) := by
      simp
    rw [hids]
    exact nodup_drop _ _ _ _ hndc
  rw [runMicrotask_finallyCb]
  cases hcb : s.options.continueWhenError with
  | false =>
      rw [runFinallyCb_stop { s with mts := rest } id inv.noPP hcb]
      cases hraf : s.options.removeAfterFinish with
      | false =>
          rw [pushFinished_found { s with mts := rest } id a0 hraf hfind]
          refine ⟨⟨A', B, C, ?_, ?_, ?_, ?_, ?_, d.bStatus, d.cPending, ?_⟩,
            inv.waitWaiting, ?_, ?_, inv.notBP, inv.noPP, ?_, ?_⟩
          · show s.excuteList.drop 1 = A' ++ B ++ C
            exact hdrop
          · show rest.filterMap finStageId = _
            exact hfins''
          · show rest.filterMap catchStage = _
            exact hcatches
          · show rest.filterMap thenStage = _
            exact hthens
          · exact hA'set
          · exact d.pendBound
          · intro t ht
            have ht2 : t ∈ s.finishList ++ [a0] := ht
            rcases List.mem_append.mp ht2 with h | h
            · exact inv.finSettled t h
            · have : t = a0 := by simpa using h
              subst this
              exact ha0set
          · show ((s.waitList ++ s.excuteList.drop 1
                ++ (s.finishList ++ [a0])).map fun t => t.id).Nodup
            exact hnodup1
          · show Microtask.pauseSettled ∉ rest
            exact noPS'
          · intro hct
            have hct' : s.options.continueWhenError = true := hct
            rw [hcb] at hct'
            simp at hct'
      | true =>
          rw [pushFinished_raf_true { s with mts := rest } id hraf]
          refine ⟨⟨A', B, C, ?_, ?_, ?_, ?_, ?_, d.bStatus, d.cPending, ?_⟩,
            inv.waitWaiting, ?_, ?_, inv.notBP, inv.noPP, ?_, ?_⟩
          · show s.excuteList.drop 1 = A' ++ B ++ C
            exact hdrop
          · show rest.filterMap finStageId = _
            exact hfins''
          · show rest.filterMap catchStage = _
            exact hcatches
          · show rest.filterMap thenStage = _
            exact hthens
          · exact hA'set
          · exact d.pendBound
          · intro t ht
            have ht2 : t ∈ s.finishList := ht
            exact inv.finSettled t ht2
          · show ((s.waitList ++ s.excuteList.drop 1 ++ s.finishList).map fun t => t.id).Nodup
            exact hnodup2
          · show Microtask.pauseSettled ∉ rest
            exact noPS'
          · intro hct
            have hct' : s.options.continueWhenError = true := hct
            rw [hcb] at hct'
            simp at hct'
  | true =>
      have hct' : s.options.continueWhenError = true := hcb
      have h1 := inv.cweSingle hct'
      rw [hm] at h1
      have hrest : rest = [] := by
        cases rest with
        | nil => rfl
        | cons a l => simp at h1
      subst hrest
      have hA'nil : A' = [] := by
        have h := hfins''
        rw [List.filterMap_nil] at h
        exact List.map_eq_nil.mp h.symm
      have hBnil : B = [] := by
        have h := hcatches
        rw [List.filterMap_nil] at h
        exact List.map_eq_nil.mp h.symm
      have hCnil : C = [] := by
        have h := hthens
        rw [List.filterMap_nil] at h
        exact List.map_eq_nil.mp h.symm
      have hexa : s.excuteList = [a0] := by
        rw [hex, hA'nil, hBnil, hCnil]
        rfl
      rw [runFinallyCb_chain { s with mts := ([] : List Microtask) } id inv.noPP hcb]
      have hbp2 : ¬ (pushFinished { s with mts := ([] : List Microtask) } id).status
          = QueueStatus.qBeforePause := by
        rw [pushFinished_status]
        exact inv.notBP
      rcases next_cases _ hbp2 with ⟨hw2, hrw2⟩ | ⟨t, rest2, hw2, hrw2⟩
      · -- waitList empty: the queue finishes; no new chain starts
        rw [hrw2]
        rw [pushFinished_waitList] at hw2
        have hwl : s.waitList = [] := hw2
        cases hraf : s.options.removeAfterFinish with
        | false =>
            rw [pushFinished_found { s with mts := ([] : List Microtask) } id a0 hraf hfind]
            refine ⟨⟨A', B, C, ?_, ?_, ?_, ?_, ?_, d.bStatus, d.cPending, ?_⟩,
              inv.waitWaiting, ?_, ?_, by simp, inv.noPP, ?_, ?_⟩
            · show s.excuteList.drop 1 = A' ++ B ++ C
              exact hdrop
            · show (List.filterMap finStageId []) = _
              exact hfins''
            · show (List.filterMap catchStage []) = _
              exact hcatches
            · show (List.filterMap thenStage []) = _
              exact hthens
            · exact hA'set
            · exact d.pendBound
            · intro t ht
              have ht2 : t ∈ s.finishList ++ [a0] := ht
              rcases List.mem_append.mp ht2 with h | h
              · exact inv.finSettled t h
              · have : t = a0 := by simpa using h
                subst this
                exact ha0set
            · show ((s.waitList ++ s.excuteList.drop 1
                  ++ (s.finishList ++ [a0])).map fun t => t.id).Nodup
              exact hnodup1
            · show Microtask.pauseSettled ∉ ([] : List Microtask)
              simp
            · intro hct
              show (List.length ([] : List Microtask)) ≤ 1
              simp
        | true =>
            rw [pushFinished_raf_true { s with mts := ([] : List Microtask) } id hraf]
            refine ⟨⟨A', B, C, ?_, ?_, ?_, ?_, ?_, d.bStatus, d.cPending, ?_⟩,
              inv.waitWaiting, ?_, ?_, by simp, inv.noPP, ?_, ?_⟩
            · show s.excuteList.drop 1 = A' ++ B ++ C
              exact hdrop
            · show (List.filterMap finStageId []) = _
              exact hfins''
            · show (List.filterMap catchStage []) = _
              exact hcatches
            · show (List.filterMap thenStage []) = _
              exact hthens
            · exact hA'set
            · exact d.pendBound
            · intro t ht
              have ht2 : t ∈ s.finishList := ht
              exact inv.finSettled t ht2
            · show ((s.waitList ++ s.excuteList.drop 1 ++ s.finishList).map fun t => t.id).Nodup
              exact hnodup2
            · show Microtask.pauseSettled ∉ ([] : List Microtask)
              simp
            · intro hct
              show (List.length ([] : List Microtask)) ≤ 1
              simp
      · -- waitList nonempty: next() starts the head task as a fresh single chain
        rw [hrw2]
        rw [pushFinished_waitList] at hw2
        have hwl : s.waitList = t :: rest2 := hw2
        have hnd3 : (t.id :: ((rest2.map fun x => x.id) ++ [a0.id]
            ++ (s.finishList.map fun x => x.id))).Nodup := by
          have h := inv.nodup
          rw [show allIds s = t.id :: ((rest2.map fun x => x.id) ++ [a0.id]
              ++ (s.finishList.map fun x => x.id)) from by
            simp [allIds, allTasks, hwl, hexa]] at h
          exact h
        have h4 := List.nodup_cons.mp hnd3
        have htn := h4.1
        have htnr : t.id ∉ rest2.map fun x => x.id := fun hh => htn (by simp [hh])
        have htna : ¬ t.id = a0.id := fun hh => htn (by simp [hh])
        have htnf : t.id ∉ s.finishList.map fun x => x.id := fun hh => htn (by simp [hh])
        have hsw2 : setStatusById t.id TaskStatus.pedding rest2 = rest2 :=
          setStatusById_of_not_mem _ _ _ htnr
        have hsf2 : setStatusById t.id TaskStatus.pedding s.finishList = s.finishList :=
          setStatusById_of_not_mem _ _ _ htnf
        have hsf2' : setStatusById t.id TaskStatus.pedding (s.finishList ++ [a0])
            = s.finishList ++ [a0] := by
          have htna' : ¬ a0.id = t.id := fun hh => htna hh.symm
          rw [setStatusById_append, hsf2]
          simp [setStatusById, htna']
        have htne : t.id ∉ s.excuteList.map fun x => x.id := by
          rw [hexa]
          simpa using htna
        have hse2 : setStatusById t.id TaskStatus.pedding (s.excuteList ++ [t])
            = s.excuteList ++ [({ t with status := TaskStatus.pedding } : AsyncTaskItem)] := by
          rw [setStatusById_append, setStatusById_of_not_mem _ _ _ htne]
          simp [setStatusById]
        have hdrop2 : (setStatusById t.id TaskStatus.pedding (s.excuteList ++ [t])).drop 1
            = [({ t with status := TaskStatus.pedding } : AsyncTaskItem)] := by
          rw [hse2, hexa]
          rfl
        cases hraf : s.options.removeAfterFinish with
        | false =>
            rw [pushFinished_found { s with mts := ([] : List Microtask) } id a0 hraf hfind]
            refine ⟨⟨[], [], [({ t with status := TaskStatus.pedding } : AsyncTaskItem)],
                ?_, ?_, ?_, ?_, ?_, ?_, ?_, ?_⟩,
              ?_, ?_, ?_, inv.notBP, inv.noPP, ?_, ?_⟩
            · show (setStatusById t.id TaskStatus.pedding (s.excuteList ++ [t])).drop 1 = _
              rw [hdrop2]
              simp
            · show (([] : List Microtask)
                  ++ [Microtask.thenCb t.id t.outcome]).filterMap finStageId = _
              simp [finStageId]
            · show (([] : List Microtask)
                  ++ [Microtask.thenCb t.id t.outcome]).filterMap catchStage = _
              simp [catchStage]
            · show (([] : List Microtask)
                  ++ [Microtask.thenCb t.id t.outcome]).filterMap thenStage = _
              simp [thenStage, taskKey]
            · simp
            · simp
            · intro u hu
              have : u = { t with status := TaskStatus.pedding } := by simpa using hu
              subst this
              rfl
            · simp
            · intro u hu
              have hu2 : u ∈ setStatusById t.id TaskStatus.pedding rest2 := hu
              rw [hsw2] at hu2
              exact inv.waitWaiting u (by rw [hwl]; exact List.mem_cons_of_mem _ hu2)
            · intro u hu
              have hu2 : u ∈ setStatusById t.id TaskStatus.pedding (s.finishList ++ [a0]) := hu
              rw [hsf2'] at hu2
              rcases List.mem_append.mp hu2 with h | h
              · exact inv.finSettled u h
              · have : u = a0 := by simpa using h
                subst this
                exact ha0set
            · show ((setStatusById t.id TaskStatus.pedding rest2
                  ++ (setStatusById t.id TaskStatus.pedding (s.excuteList ++ [t])).drop 1
                  ++ setStatusById t.id TaskStatus.pedding (s.finishList ++ [a0])).map
                    fun x => x.id).Nodup
              rw [hsw2, hdrop2, hsf2']
              have hids : ((rest2 ++ [({ t with status := TaskStatus.pedding } : AsyncTaskItem)]
                  ++ (s.finishList ++ [a0])).map fun x => x.id)
                  = (rest2.map fun x => x.id) ++ [t.id]
                    ++ ((s.finishList.map fun x => x.id) ++ [a0.id]) := by
                simp
              rw [hids]
              have e1 : (rest2.map fun x => x.id) ++ [t.id]
                  ++ ((s.finishList.map fun x => x.id) ++ [a0.id])
                  = (rest2.map fun x => x.id)
                    ++ t.id :: ((s.finishList.map fun x => x.id) ++ [a0.id]) := by
                simp
              have e2 : (rest2.map fun x => x.id) ++ [a0.id] ++ (s.finishList.map fun x => x.id)
                  = (rest2.map fun x => x.id) ++ a0.id :: (s.finishList.map fun x => x.id) := by
                simp
              rw [e1]
              refine (List.Perm.nodup_iff ?_).mpr hnd3
              rw [e2]
              refine List.Perm.trans List.perm_middle (List.Perm.cons _ ?_)
              exact List.Perm.append_left _ (List.perm_append_singleton _ _)
            · intro hmem
              have hmem2 : Microtask.pauseSettled
                  ∈ ([] : List Microtask) ++ [Microtask.thenCb t.id t.outcome] := hmem
              simp at hmem2
            · intro hct
              show (([] : List Microtask) ++ [Microtask.thenCb t.id t.outcome]).length ≤ 1
              simp
        | true =>
            rw [pushFinished_raf_true { s with mts := ([] : List Microtask) } id hraf]
            refine ⟨⟨[], [], [({ t with status := TaskStatus.pedding } : AsyncTaskItem)],
                ?_, ?_, ?_, ?_, ?_, ?_, ?_, ?_⟩,
              ?_, ?_, ?_, inv.notBP, inv.noPP, ?_, ?_⟩
            · show (setStatusById t.id TaskStatus.pedding (s.excuteList ++ [t])).drop 1 = _
              rw [hdrop2]
              simp
            · show (([] : List Microtask)
                  ++ [Microtask.thenCb t.id t.outcome]).filterMap finStageId = _
              simp [finStageId]
            · show (([] : List Microtask)
                  ++ [Microtask.thenCb t.id t.outcome]).filterMap catchStage = _
              simp [catchStage]
            · show (([] : List Microtask)
                  ++ [Microtask.thenCb t.id t.outcome]).filterMap thenStage = _
              simp [thenStage, taskKey]
            · simp
            · simp
            · intro u hu
              have : u = { t with status := TaskStatus.pedding } := by simpa using hu
              subst this
              rfl
            · simp
            · intro u hu
              have hu2 : u ∈ setStatusById t.id TaskStatus.pedding rest2 := hu
              rw [hsw2] at hu2
              exact inv.waitWaiting u (by rw [hwl]; exact List.mem_cons_of_mem _ hu2)
            · intro u hu
              have hu2 : u ∈ setStatusById t.id TaskStatus.pedding s.finishList := hu
              rw [hsf2] at hu2
              exact inv.finSettled u hu2
            · show ((setStatusById t.id TaskStatus.pedding rest2
                  ++ (setStatusById t.id TaskStatus.pedding (s.excuteList ++ [t])).drop 1
                  ++ setStatusById t.id TaskStatus.pedding s.finishList).map
                    fun x => x.id).Nodup
              rw [hsw2, hdrop2, hsf2]
              have hids : ((rest2 ++ [({ t with status := TaskStatus.pedding } : AsyncTaskItem)]
                  ++ s.finishList).map fun x => x.id)
                  = (rest2.map fun x => x.id) ++ [t.id]
                    ++ (s.finishList.map fun x => x.id) := by
                simp
              rw [hids]
              have e1 : (rest2.map fun x => x.id) ++ [t.id] ++ (s.finishList.map fun x => x.id)
                  = (rest2.map fun x => x.id)
                    ++ t.id :: (s.finishList.map fun x => x.id) := by
                simp
              have e2 : (rest2.map fun x => x.id) ++ [a0.id] ++ (s.finishList.map fun x => x.id)
                  = (rest2.map fun x => x.id) ++ a0.id :: (s.finishList.map fun x => x.id) := by
                simp
              rw [e1]
              have hp : List.Perm ((rest2.map fun x => x.id)
                  ++ t.id :: (s.finishList.map fun x => x.id))
                  (t.id :: ((rest2.map fun x => x.id) ++ (s.finishList.map fun x => x.id))) :=
                List.perm_middle
              refine (List.Perm.nodup_iff hp).mpr ?_
              have hp2 : List.Perm (t.id :: ((rest2.map fun x => x.id) ++ [a0.id]
                  ++ (s.finishList.map fun x => x.id)))
                  (a0.id :: (t.id :: ((rest2.map fun x => x.id)
                    ++ (s.finishList.map fun x => x.id)))) := by
                rw [e2]
                refine List.Perm.trans (List.Perm.cons _ List.perm_middle) ?_
                exact List.Perm.swap _ _ _
              have h8 := (List.Perm.nodup_iff hp2).mp hnd3
              exact (List.nodup_cons.mp h8).2
            · intro hmem
              have hmem2 : Microtask.pauseSettled
                  ∈ ([] : List Microtask) ++ [Microtask.thenCb t.id t.outcome] := hmem
              simp at hmem2
            · intro hct
              show (([] : List Microtask) ++ [Microtask.thenCb t.id t.outcome]).length ≤ 1
              simp

end AsyncQueue

namespace AsyncQueue

theorem shapeInv_step (s : QueueState) (m : Microtask) (rest : List Microtask)
    (hm : s.mts = m :: rest) (inv : ShapeInv s) :
    ShapeInv (runMicrotask { s with mts := rest } m) := by
  cases m with
  | thenCb id o => exact shapeInv_step_then s id o rest hm inv
  | catchCb id o => exact shapeInv_step_catch s id o rest hm inv
  | finallyCb id => exact shapeInv_step_finally s id rest hm inv
  | pauseSettled =>
      exact absurd (by rw [hm]; exact List.mem_cons_self _ _) inv.noPS

theorem drain_shapeInv (fuel : Nat) : ∀ s : QueueState, ShapeInv s →
    ShapeInv (drain fuel s) := by
  induction fuel with
  | zero => intro s inv; exact inv
  | succ k ih =>
      intro s inv
      cases hm : s.mts with
      | nil =>
          rw [drain_of_mts_eq_nil _ s hm]
          exact inv
      | cons m rest =>
          rw [drain_succ_cons k s m rest hm]
          exact ih _ (shapeInv_step s m rest hm inv)

theorem shapeInv_next_of (u : QueueState)
    (hww : ∀ t ∈ u.waitList, t.status = TaskStatus.waiting)
    (hEx : u.excuteList = [])
    (hfs : ∀ t ∈ u.finishList, ¬ t.status = TaskStatus.pedding)
    (hnd : (allIds u).Nodup)
    (hst : ¬ u.status = QueueStatus.qBeforePause)
    (hpp : u.pausePending = none)
    (hmts : u.mts = []) :
    ShapeInv (next u) := by
  rcases next_cases u hst with ⟨hw, hrw⟩ | ⟨t, rest, hw, hrw⟩
  · rw [hrw]
    refine ⟨⟨[], [], [], ?_, ?_, ?_, ?_, by simp, by simp, by simp, by simp⟩,
      hww, hfs, ?_, by simp, hpp, ?_, ?_⟩
    · show u.excuteList = _
      rw [hEx]
      rfl
    · show u.mts.filterMap finStageId = _
      rw [hmts]
      rfl
    · show u.mts.filterMap catchStage = _
      rw [hmts]
      rfl
    · show u.mts.filterMap thenStage = _
      rw [hmts]
      rfl
    · show (allIds u).Nodup
      exact hnd
    · show Microtask.pauseSettled ∉ u.mts
      rw [hmts]
      simp
    · intro hct
      show u.mts.length ≤ 1
      rw [hmts]
      simp
  · rw [hrw]
    have hnd3 : (t.id :: ((rest.map fun x => x.id)
        ++ (u.finishList.map fun x => x.id))).Nodup := by
      have h := hnd
      rw [show allIds u = t.id :: ((rest.map fun x => x.id)
          ++ (u.finishList.map fun x => x.id)) from by
        simp [allIds, allTasks, hw, hEx]] at h
      exact h
    have h4 := List.nodup_cons.mp hnd3
    have htnr : t.id ∉ rest.map fun x => x.id := fun hh => h4.1 (by simp [hh])
    have htnf : t.id ∉ u.finishList.map fun x => x.id := fun hh => h4.1 (by simp [hh])
    have hsw : setStatusById t.id TaskStatus.pedding rest = rest :=
      setStatusById_of_not_mem _ _ _ htnr
    have hsf : setStatusById t.id TaskStatus.pedding u.finishList = u.finishList :=
      setStatusById_of_not_mem _ _ _ htnf
    have hse : setStatusById t.id TaskStatus.pedding (u.excuteList ++ [t])
        = [({ t with status := TaskStatus.pedding } : AsyncTaskItem)] := by
      rw [hEx]
      simp [setStatusById]
    refine ⟨⟨[], [], [({ t with status := TaskStatus.pedding } : AsyncTaskItem)],
        ?_, ?_, ?_, ?_, by simp, by simp, ?_, by simp⟩,
      ?_, ?_, ?_, hst, hpp, ?_, ?_⟩
    · show setStatusById t.id TaskStatus.pedding (u.excuteList ++ [t]) = _
      rw [hse]
      rfl
    · show (u.mts ++ [Microtask.thenCb t.id t.outcome]).filterMap finStageId = _
      rw [hmts]
      simp [finStageId]
    · show (u.mts ++ [Microtask.thenCb t.id t.outcome]).filterMap catchStage = _
      rw [hmts]
      simp [catchStage]
    · show (u.mts ++ [Microtask.thenCb t.id t.outcome]).filterMap thenStage = _
      rw [hmts]
      simp [thenStage, taskKey]
    · intro u' hu
      have : u' = { t with status := TaskStatus.pedding } := by simpa using hu
      subst this
      rfl
    · intro u' hu
      have hu2 : u' ∈ setStatusById t.id TaskStatus.pedding rest := hu
      rw [hsw] at hu2
      exact hww u' (by rw [hw]; exact List.mem_cons_of_mem _ hu2)
    · intro u' hu
      have hu2 : u' ∈ setStatusById t.id TaskStatus.pedding u.finishList := hu
      rw [hsf] at hu2
      exact hfs u' hu2
    · show ((setStatusById t.id TaskStatus.pedding rest
          ++ setStatusById t.id TaskStatus.pedding (u.excuteList ++ [t])
          ++ setStatusById t.id TaskStatus.pedding u.finishList).map fun x => x.id).Nodup
      rw [hsw, hse, hsf]
      have hids : ((rest ++ [({ t with status := TaskStatus.pedding } : AsyncTaskItem)]
          ++ u.finishList).map fun x => x.id)
          = (rest.map fun x => x.id) ++ (([] : List String) ++ [t.id])
            ++ (u.finishList.map fun x => x.id) := by
        simp
      rw [hids]
      refine nodup_start_move _ _ _ _ ?_
      simpa using hnd3
    · intro hmem
      have hmem2 : Microtask.pauseSettled
          ∈ u.mts ++ [Microtask.thenCb t.id t.outcome] := hmem
      rw [hmts] at hmem2
      simp at hmem2
    · intro hct
      show (u.mts ++ [Microtask.thenCb t.id t.outcome]).length ≤ 1
      rw [hmts]
      simp

theorem shapeInv_exec_pushAll (opts : AsyncQueueOptions) (ts : List (String × Outcome))
    (him : opts.immediate = false) (hnd : (ts.map Prod.fst).Nodup) :
    ShapeInv (exec (pushAll (initQueue opts) ts)) := by
  rw [pushAll_initQueue ts opts him hnd]
  rw [show exec { initQueue opts with waitList := ts.map taskOf }
      = next (emit { { initQueue opts with waitList := ts.map taskOf } with
          status := QueueStatus.qRunning } Event.queueStart) from by
    unfold exec
    rw [if_neg (by simp [initQueue])]]
  apply shapeInv_next_of
  · intro t ht
    have ht2 : t ∈ ts.map taskOf := ht
    obtain ⟨p, _, hp⟩ := List.mem_map.mp ht2
    rw [← hp]
    rfl
  · rfl
  · intro t ht
    have ht2 : t ∈ ([] : List AsyncTaskItem) := ht
    simp at ht2
  · show ((ts.map taskOf ++ ([] : List AsyncTaskItem)
        ++ ([] : List AsyncTaskItem)).map fun t => t.id).Nodup
    have he : ((ts.map taskOf ++ ([] : List AsyncTaskItem)
        ++ ([] : List AsyncTaskItem)).map fun t => t.id) = ts.map Prod.fst := by
      simp [taskOf]
    rw [he]
    exact hnd
  · simp [initQueue]
  · rfl
  · rfl

end AsyncQueue

namespace AsyncQueue

/-- C2 (amended): over any run consisting of submissions (`push` with
distinct ids, `immediate` disabled), one `exec()`, and any number of
settled microtask steps, at most one tracked task holds `STATUS_PEDDING`
at any instant.  (The other half of the original claim — that `excuteList`
never holds more than one entry — is refuted by `c2_counterexample`;
`excuteList` transiently holds two entries whenever `next()` has started
the follow-up task before the finished chain's `.finally` shift runs.) -/
theorem c2_single_pending_amended (opts : AsyncQueueOptions)
    (ts : List (String × Outcome))
    (him : opts.immediate = false) (hnd : (ts.map Prod.fst).Nodup) (fuel : Nat) :
    pendingCount (drain fuel (exec (pushAll (initQueue opts) ts))) ≤ 1 :=
  pendingCount_le_one _ (drain_shapeInv fuel _ (shapeInv_exec_pushAll opts ts him hnd))

theorem c2_single_pending_amended_witness :
    (defaultOptions.immediate = false
      ∧ (([("a", Outcome.resolve), ("b", Outcome.resolve)].map Prod.fst).Nodup))
    ∧ pendingCount (drain 3 (exec (pushAll (initQueue defaultOptions)
        [("a", Outcome.resolve), ("b", Outcome.resolve)]))) ≤ 1 :=
  ⟨⟨rfl, by decide⟩,
    c2_single_pending_amended defaultOptions
      [("a", Outcome.resolve), ("b", Outcome.resolve)] rfl (by decide) 3⟩

end AsyncQueue

namespace AsyncQueue

theorem c3_push_dedup_witness :
    findTaskById (pushAll (initQueue defaultOptions) [("a", Outcome.resolve)]) "a"
      = some { id := "a", status := TaskStatus.waiting, outcome := Outcome.resolve }
    ∧ push (pushAll (initQueue defaultOptions) [("a", Outcome.resolve)]) "a" Outcome.rejection
      = (pushAll (initQueue defaultOptions) [("a", Outcome.resolve)],
          PushResult.rejected
            { id := "a", status := TaskStatus.waiting, outcome := Outcome.resolve })
    ∧ isExist (pushAll (initQueue defaultOptions) [("a", Outcome.resolve)]) "b" = false
    ∧ push (pushAll (initQueue defaultOptions) [("a", Outcome.resolve)]) "b" Outcome.resolve
      = ({ pushAll (initQueue defaultOptions) [("a", Outcome.resolve)] with
            waitList := (pushAll (initQueue defaultOptions) [("a", Outcome.resolve)]).waitList
              ++ [{ id := "b", status := TaskStatus.waiting, outcome := Outcome.resolve }] },
          PushResult.resolved) :=
  ⟨by decide,
    c3_push_dedup.1 _ "a" Outcome.rejection _ (by decide),
    by decide,
    c3_push_dedup.2 _ "b" Outcome.resolve (by decide) (by decide)⟩

theorem c7_reset_merge_witness :
    (initQueue defaultOptions).status ≠ QueueStatus.qRunning
    ∧ reset (initQueue defaultOptions)
      = ({ initQueue defaultOptions with
            waitList := ((initQueue defaultOptions).waitList
              ++ (initQueue defaultOptions).finishList).map
                fun t => { t with status := TaskStatus.waiting },
            finishList := [] }, ResetResult.completed)
    ∧ (exec (pushAll (initQueue defaultOptions) [("a", Outcome.resolve)])).status
        = QueueStatus.qRunning
    ∧ reset (exec (pushAll (initQueue defaultOptions) [("a", Outcome.resolve)]))
      = (exec (pushAll (initQueue defaultOptions) [("a", Outcome.resolve)]),
          ResetResult.rejected) :=
  ⟨by decide, c7_reset_merge.1 _ (by decide), by decide, c7_reset_merge.2 _ (by decide)⟩

theorem c6_pause_boundary_witness :
    (initQueue defaultOptions).status ≠ QueueStatus.qRunning
    ∧ pause (initQueue defaultOptions) = initQueue defaultOptions
    ∧ (exec (pushAll (initQueue defaultOptions) [("a", Outcome.resolve)])).status
        = QueueStatus.qRunning
    ∧ (pause (exec (pushAll (initQueue defaultOptions) [("a", Outcome.resolve)]))).status
        = QueueStatus.qBeforePause
    ∧ next (pause (exec (pushAll (initQueue defaultOptions) [("a", Outcome.resolve)])))
        = pause (exec (pushAll (initQueue defaultOptions) [("a", Outcome.resolve)])) :=
  ⟨by decide,
    c6_pause_boundary.1 _ (by decide),
    by decide,
    (c6_pause_boundary.2.1 _ (by decide)).1,
    c6_pause_boundary.2.2.1 _ (by decide)⟩

theorem c10_retry_no_dedup_witness :
    runningAB.status = QueueStatus.qRunning
    ∧ (retry runningAB
        { id := "x", status := TaskStatus.waiting, outcome := Outcome.resolve }).waitList
      = runningAB.waitList
        ++ [{ id := "x", status := TaskStatus.waiting, outcome := Outcome.resolve }]
    ∧ (retry runningAB
        { id := "x", status := TaskStatus.waiting, outcome := Outcome.resolve }).finishList
      = runningAB.finishList
    ∧ (retry runningAB
        { id := "x", status := TaskStatus.waiting, outcome := Outcome.resolve }).excuteList
      = runningAB.excuteList :=
  ⟨by decide,
    (c10_retry_no_dedup.1 runningAB _ (by decide)).1,
    (c10_retry_no_dedup.1 runningAB _ (by decide)).2.2.1 (by decide),
    (c10_retry_no_dedup.1 runningAB _ (by decide)).2.2.2⟩

theorem c8_retryAll_amended_witness :
    (exec (pushAll (initQueue defaultOptions) [("a", Outcome.resolve)])).status
      = QueueStatus.qRunning
    ∧ (retryAll (exec (pushAll (initQueue defaultOptions)
          [("a", Outcome.resolve)]))).waitList
      = (exec (pushAll (initQueue defaultOptions) [("a", Outcome.resolve)])).waitList
        ++ (exec (pushAll (initQueue defaultOptions)
            [("a", Outcome.resolve)])).finishList.filter
          (fun t => t.status = TaskStatus.failure)
    ∧ (retryAll (exec (pushAll (initQueue defaultOptions)
          [("a", Outcome.resolve)]))).finishList
      = (exec (pushAll (initQueue defaultOptions)
          [("a", Outcome.resolve)])).finishList.filter
          (fun t => t.status = TaskStatus.success) :=
  ⟨by decide,
    (c8_retryAll_amended _ (by decide)).1,
    (c8_retryAll_amended _ (by decide)).2.1⟩

theorem c9_next_start_order_witness :
    (pushAll (initQueue defaultOptions) [("a", Outcome.resolve)]).status
      ≠ QueueStatus.qBeforePause
    ∧ (pushAll (initQueue defaultOptions) [("a", Outcome.resolve)]).waitList
      = [{ id := "a", status := TaskStatus.waiting, outcome := Outcome.resolve }]
    ∧ (next (pushAll (initQueue defaultOptions) [("a", Outcome.resolve)])).events
      = (pushAll (initQueue defaultOptions) [("a", Outcome.resolve)]).events
        ++ [Event.taskStart "a" TaskStatus.waiting]
    ∧ (next (pushAll (initQueue defaultOptions) [("a", Outcome.resolve)])).mts
      = (pushAll (initQueue defaultOptions) [("a", Outcome.resolve)]).mts
        ++ [Microtask.thenCb "a" Outcome.resolve]
    ∧ (next (pushAll (initQueue defaultOptions) [("a", Outcome.resolve)])).waitList = [] :=
  ⟨by decide, by decide,
    (c9_next_start_order (pushAll (initQueue defaultOptions) [("a", Outcome.resolve)])
      { id := "a", status := TaskStatus.waiting, outcome := Outcome.resolve } []
      (by decide) (by decide)).1,
    (c9_next_start_order (pushAll (initQueue defaultOptions) [("a", Outcome.resolve)])
      { id := "a", status := TaskStatus.waiting, outcome := Outcome.resolve } []
      (by decide) (by decide)).2.1,
    (c9_next_start_order (pushAll (initQueue defaultOptions) [("a", Outcome.resolve)])
      { id := "a", status := TaskStatus.waiting, outcome := Outcome.resolve } []
      (by decide) (by decide)).2.2.2 (by decide)⟩

theorem c1_fifo_start_order_witness :
    defaultOptions.immediate = false
    ∧ (([("a", Outcome.resolve), ("b", Outcome.resolve)].map Prod.fst).Nodup)
    ∧ startedIds (runAll defaultOptions
        [("a", Outcome.resolve), ("b", Outcome.resolve)]).events
      = [("a", Outcome.resolve), ("b", Outcome.resolve)].map Prod.fst
    ∧ (runAll defaultOptions [("a", Outcome.resolve), ("b", Outcome.resolve)]).waitList = []
    ∧ (runAll defaultOptions [("a", Outcome.resolve), ("b", Outcome.resolve)]).mts = [] :=
  ⟨rfl, by decide,
    (c1_fifo_start_order [("a", Outcome.resolve), ("b", Outcome.resolve)]
      defaultOptions rfl (by decide) (by decide)).1,
    (c1_fifo_start_order [("a", Outcome.resolve), ("b", Outcome.resolve)]
      defaultOptions rfl (by decide) (by decide)).2.1,
    (c1_fifo_start_order [("a", Outcome.resolve), ("b", Outcome.resolve)]
      defaultOptions rfl (by decide) (by decide)).2.2⟩

end AsyncQueue
